import Mathlib

/-!
Verification of the velocypack incremental `Builder` (src/src/Builder.cpp).

The buffer is modelled as a function `Nat → Nat` (byte at each absolute
index) together with the append position `pos`; machine integers
(`ValueLength` = uint64) are modelled as `Nat`, with `% 2 ^ w` written out
at the places where the source truncates to a field width.  In the
arithmetic below, C++ unsigned subtraction is rendered as `Nat`
subtraction; the source only ever subtracts quantities that cannot
underflow for the states reachable by the Builder (the theorems carry the
corresponding hypotheses, e.g. `tos + 9 ≤ pos`).

Code that lives in this repository but outside `src/` (Builder.h,
velocypack-common.h, Slice, the xxhash library) is modelled from the
specification; every such definition is marked `Modelled from the spec:`.
-/

namespace VPackBuilder

/-- The exception kinds thrown by the Builder (spec §7). -/
inductive VPackError where
  | builderNeedOpenCompound
  | builderNeedOpenArray
  | builderNeedOpenObject
  | builderNeedSubvalue
  | builderKeyAlreadyWritten
  | builderKeyMustBeString
  | builderUnexpectedType
  | builderUnexpectedValue
  | numberOutOfRange
  | builderExternalsDisallowed
  | duplicateAttributeName
  | notImplemented
  deriving DecidableEq, Repr

/-- The recognized configuration options (spec §6). -/
structure BOptions where
  buildUnindexedArrays : Bool
  buildUnindexedObjects : Bool
  checkAttributeUniqueness : Bool
  disallowExternals : Bool
  deriving DecidableEq, Repr

/-- `_start[i] = v`: a single byte store into the buffer. -/
def setByte (d : Nat → Nat) (i v : Nat) : Nat → Nat :=
  fun j => if j = i then v else d j

/-- The store loop `for (i…) { _start[base + i] = x & 0xff; x >>= 8; }`:
`w` little-endian bytes of `x` at `base`. -/
def storeLEBytes (d : Nat → Nat) (base w x : Nat) : Nat → Nat :=
  fun j => if base ≤ j ∧ j < base + w then x / 256 ^ (j - base) % 256 else d j

/-- `memmove(_start + dst, _start + src, len)` (the source ranges of all
`memmove`s in Builder.cpp are read before any overlapping write, which is
exactly the as-if-copied semantics modelled here). -/
def memmoveBytes (d : Nat → Nat) (dst src len : Nat) : Nat → Nat :=
  fun j => if dst ≤ j ∧ j < dst + len then d (src + (j - dst)) else d j

/-- `memcpy(_start + base, s, |s|)` for a byte string `s`. -/
def writeBytesList (d : Nat → Nat) (base : Nat) (s : List Nat) : Nat → Nat :=
  fun j => if base ≤ j ∧ j < base + s.length then s.getD (j - base) 0 else d j

/-- The table-write loop of `closeArray`/`close`: each entry of the list as
`w` little-endian bytes, consecutively from `base`. -/
def writeOffsets (d : Nat → Nat) (base w : Nat) : List Nat → (Nat → Nat)
  | [] => d
  | x :: xs => writeOffsets (storeLEBytes d base w x) (base + w) w xs

/-- One stack frame: the `headerOffset` stored in `_stack` together with
the member-offset vector `_index[depth]` for that depth.  The top of the
C++ stack (`_stack.back()`) is the head of the list. -/
abbrev Frame := Nat × List Nat

/-- The Builder state: buffer bytes, append position `_pos`, nesting
stack (with each frame's member offsets), the `_keyWritten` flag and the
options bag.  Buffer capacity is not modelled (`reserveSpace` only grows
capacity and never changes content or `_pos`). -/
structure BuilderState where
  start : Nat → Nat
  pos : Nat
  frames : List Frame
  keyWritten : Bool
  options : BOptions

/-- `Builder::removeLast` (Builder.cpp lines 77–88).  Both throws occur
before the mutation of `_pos`, so on error the state is returned
untouched, exactly as a C++ throw leaves the object. -/
def removeLast (b : BuilderState) : BuilderState × Option VPackError :=
  match b.frames with
  | [] => (b, some .builderNeedOpenCompound)
  | (tos, index) :: rest =>
    if index.isEmpty then
      (b, some .builderNeedSubvalue)
    else
      ({ b with pos := tos + index.getLast!,
                frames := (tos, index.dropLast) :: rest }, none)

/-- `Builder::closeEmptyArrayOrObject` (lines 90–98). -/
def closeEmptyArrayOrObject (b : BuilderState) (tos : Nat) (isArray : Bool)
    (rest : List Frame) : BuilderState :=
  { b with start := setByte b.start tos (if isArray then 0x01 else 0x0a),
           pos := b.pos - 8,
           frames := rest }

/-- Modelled from the spec: `getVariableValueLength` lives in
velocypack-common.h, which is not under src/.  Spec §4.7/§6: compact
lengths are LSB-first base-128 varints, so the stored width is the number
of 7-bit digits of the value (1 for value 0).  The recursion is given
fuel 10, enough for every value below 2^70 (`ValueLength` is uint64). -/
def gvvlAux : Nat → Nat → Nat
  | 0, _ => 1
  | f + 1, v => if v ≤ 0x7f then 1 else 1 + gvvlAux f (v / 128)

/-- Modelled from the spec: varint width of a value (see `gvvlAux`). -/
def getVariableValueLength (v : Nat) : Nat := gvvlAux 10 v

/-- Modelled from the spec: the byte sequence written by
`storeVariableValueLength<false>` — LSB-first base-128 digits, each
non-final byte with the continuation bit 0x80 set. -/
def vvBytesAux : Nat → Nat → List Nat
  | 0, v => [v % 128]
  | f + 1, v => if v ≤ 0x7f then [v] else (v % 128 + 128) :: vvBytesAux f (v / 128)

/-- Modelled from the spec: the varint byte sequence of a value. -/
def variableValueBytes (v : Nat) : List Nat := vvBytesAux 10 v

/-- The reconciliation of `byteSize` and `bLen` performed at the top of
`Builder::closeCompactArrayOrObject` (lines 103–113): returns the final
`(byteSize, bLen)` pair. -/
def compactLenInfo (pos tos n : Nat) : Nat × Nat :=
  let nLen := getVariableValueLength n
  let byteSize0 := pos - (tos + 8) + nLen
  let bLen0 := getVariableValueLength byteSize0
  let byteSize1 := byteSize0 + bLen0
  if getVariableValueLength byteSize1 ≠ bLen0 then (byteSize1 + 1, bLen0 + 1)
  else (byteSize1, bLen0)

/-- The commit path of `Builder::closeCompactArrayOrObject` (lines
115–141): head byte 0x13/0x14, body moved down to `tos + 1 + bLen`, the
varint byte length stored forward at `tos + 1`, and the varint count
stored by `storeVariableValueLength<true>` downward ending at
`tos + byteSize - 1`, i.e. the reversed byte sequence starting at
`tos + byteSize - nLen` (Modelled from the spec, velocypack-common.h is
not under src/). -/
def compactCommit (b : BuilderState) (tos : Nat) (isArray : Bool)
    (index : List Nat) (rest : List Frame) : BuilderState :=
  let nLen := getVariableValueLength index.length
  let info := compactLenInfo b.pos tos index.length
  let byteSize := info.1
  let bLen := info.2
  let d0 := setByte b.start tos (if isArray then 0x13 else 0x14)
  let targetPos := 1 + bLen
  let d1 := if tos + 9 < b.pos then
      memmoveBytes d0 (tos + targetPos) (tos + 9) (b.pos - (tos + 9))
    else d0
  let d2 := writeBytesList d1 (tos + 1) (variableValueBytes byteSize)
  let d3 := writeBytesList d2 (tos + byteSize - nLen)
      (variableValueBytes index.length).reverse
  { b with start := d3, pos := b.pos - 8 + nLen + bLen, frames := rest }

/-- `Builder::closeCompactArrayOrObject` (lines 100–144).  Returns `some`
of the new state when the compact notation is committed, `none` when the
function gives up (`bLen ≥ 9`). -/
def closeCompactArrayOrObject (b : BuilderState) (tos : Nat) (isArray : Bool)
    (index : List Nat) (rest : List Frame) : Option BuilderState :=
  if (compactLenInfo b.pos tos index.length).2 < 9 then
    some (compactCommit b tos isArray index rest)
  else none

/-- The inner loop of the equal-stride detection in `Builder::closeArray`
(lines 163–168): `index[i+1] - index[i] == subLen` for `i = 1 .. n-2`. -/
def adjacentStrideOk (index : List Nat) (subLen : Nat) : Bool :=
  (List.range (index.length - 2)).all fun k =>
    index.getD (k + 2) 0 - index.getD (k + 1) 0 = subLen

/-- The offset-width selection of `Builder::closeArray` (lines 176–194). -/
def arrayOffsetSize (lenUsed n : Nat) (needIndexTable needNrSubs : Bool) : Nat :=
  if lenUsed + (if needIndexTable then n else 0) -
      (if needNrSubs then 6 else 7) ≤ 0xff then 1
  else if lenUsed + (if needIndexTable then 2 * n else 0) ≤ 0xffff then 2
  else if lenUsed + (if needIndexTable then 4 * n else 0) ≤ 0xffffffff then 4
  else 8

/-- The equal-stride detection of `Builder::closeArray` (lines 150–174):
`true` when no index table (and no subvalue count) is needed. -/
def arrayNoTable (lenUsed : Nat) (index : List Nat) : Bool :=
  let n := index.length
  if n = 1 then true
  else if lenUsed - index.getD 0 0 = n * (index.getD 1 0 - index.getD 0 0) then
    let subLen := index.getD 1 0 - index.getD 0 0
    if lenUsed - index.getD (n - 1) 0 ≠ subLen then false
    else adjacentStrideOk index subLen
  else false

/-- `Builder::closeArray` (lines 146–269). -/
def closeArray (b : BuilderState) (tos : Nat) (index : List Nat)
    (rest : List Frame) : BuilderState :=
  let d0 := setByte b.start tos 0x06
  let pos := b.pos
  let n := index.length
  let noTable : Bool := arrayNoTable (pos - tos) index
  let needIndexTable := !noTable
  let needNrSubs := !noTable
  let offsetSize := arrayOffsetSize (pos - tos) n needIndexTable needNrSubs
  let targetPos := if needIndexTable then 3 else 2
  let d1 :=
    if offsetSize = 1 then
      (if tos + 9 < pos then
        memmoveBytes d0 (tos + targetPos) (tos + 9) (pos - (tos + 9))
      else d0)
    else d0
  let pos1 := if offsetSize = 1 then pos - (9 - targetPos) else pos
  let index1 :=
    if offsetSize = 1 ∧ needIndexTable = true then index.map (· - (9 - targetPos))
    else index
  let d2 := if needIndexTable then writeOffsets d1 pos1 offsetSize index1
    else setByte d1 tos 0x02
  let pos2 := if needIndexTable then pos1 + offsetSize * n else pos1
  let d3 :=
    if offsetSize = 2 then setByte d2 tos (d2 tos + 1)
    else if offsetSize = 4 then setByte d2 tos (d2 tos + 2)
    else if offsetSize = 8 then
      (if needNrSubs then storeLEBytes (setByte d2 tos (d2 tos + 3)) pos2 8 n
       else setByte d2 tos (d2 tos + 3))
    else d2
  let pos3 := if offsetSize = 8 ∧ needNrSubs = true then pos2 + 8 else pos2
  let d4 := storeLEBytes d3 (tos + 1) offsetSize (pos3 - tos)
  let d5 :=
    if offsetSize < 8 ∧ needNrSubs = true then
      storeLEBytes d4 (tos + offsetSize + 1) offsetSize n
    else d4
  { b with start := d5, pos := pos3, frames := rest }

/-- The offset-width selection of the object path of `Builder::close`
(lines 313–329). -/
def objectOffsetSize (lenUsed nrSlots : Nat) : Nat :=
  if lenUsed + nrSlots - 4 ≤ 0xff then 1
  else if lenUsed + 2 * nrSlots ≤ 0xffff then 2
  else if lenUsed + 4 * nrSlots ≤ 0xffffffff then 4
  else 8

/-- The object-indexed tail of `Builder::close` (lines 313–412): the part
that runs after `computeCuckooHash` returned `(ht, seed, nrSlots)`.
The source's hash-table write loop runs for `i < nrSlots` over a vector
of exactly `nrSlots` entries; here it iterates the list `ht` (the caller
always passes `ht.length = nrSlots`).  Note that the seed store for
widths 1 and 2 (source line 404) uses the absolute buffer offset
`base + offsetSize`, without adding `tos`, which is modelled faithfully
below. -/
def closeObjectTail (b : BuilderState) (tos : Nat) (index ht : List Nat)
    (seed nrSlots : Nat) (rest : List Frame) : BuilderState :=
  let pos := b.pos
  let offsetSize := objectOffsetSize (pos - tos) nrSlots
  let d1 :=
    if offsetSize = 1 then
      (if tos + 9 < pos then
        memmoveBytes b.start (tos + 5) (tos + 9) (pos - (tos + 9))
      else b.start)
    else b.start
  let pos1 := if offsetSize = 1 then pos - 4 else pos
  let ht1 := if offsetSize = 1 then ht.map (fun x => if x ≠ 0 then x - 4 else x)
    else ht
  let tableBase := pos1
  let d2 := writeOffsets d1 tableBase offsetSize ht1
  let pos2 := pos1 + offsetSize * nrSlots
  let d3 :=
    if offsetSize = 2 then setByte d2 tos 0x0c
    else if offsetSize = 4 then
      storeLEBytes (storeLEBytes (setByte d2 tos 0x0d) pos2 4 nrSlots)
        (pos2 + 4) 1 seed
    else if offsetSize = 8 then
      storeLEBytes (storeLEBytes (storeLEBytes (setByte d2 tos 0x0e)
        pos2 8 index.length) (pos2 + 8) 8 nrSlots) (pos2 + 16) 1 seed
    else d2
  let pos3 := if offsetSize = 4 then pos2 + 5
    else if offsetSize = 8 then pos2 + 17 else pos2
  let d4 := storeLEBytes d3 (tos + 1) offsetSize (pos3 - tos)
  let d5 :=
    if offsetSize < 8 then
      storeLEBytes d4 (tos + offsetSize + 1) offsetSize index.length
    else d4
  let d6 :=
    if offsetSize < 4 then
      let base := if offsetSize = 1 then 3 else 5
      setByte (storeLEBytes d5 (tos + base) offsetSize nrSlots)
        (base + offsetSize) seed
    else d5
  { b with start := d6, pos := pos3, frames := rest }

/-- `Builder::findAttrName` (lines 56–75): the attribute-name bytes of the
key starting at absolute offset `base`.  The translated-attribute branch
resolves through `Slice::makeKey`, which is outside src/, and is modelled
as `none`. -/
def findAttrName (d : Nat → Nat) (base : Nat) : Option (List Nat) :=
  let b := d base
  if 0x40 ≤ b ∧ b ≤ 0xbe then
    some ((List.range (b - 0x40)).map fun i => d (base + 1 + i))
  else if b = 0xbf then
    let len := (List.range 8).foldl (fun acc k => acc * 256 + d (base + 8 - k)) 0
    some ((List.range len).map fun i => d (base + 9 + i))
  else none

/-- One candidate slot `h_j(name) mod nrSlots` of the cuckoo table.  The
hash is `XXH64` (the xxhash library, outside src/) seeded from
`Slice::seedTable` (Slice.cpp, outside src/); both are abstracted as
parameters `hash` and `tbl`.  `fastModulo32Bit`
(velocypack-common.h, outside src/) is replaced by a plain modulo, which
the spec (§9) sanctions as equivalent for correctness. -/
def cuckooPos (hash : Nat → List Nat → Nat) (tbl : Nat → Nat)
    (seed j nrSlots : Nat) (name : List Nat) : Nat :=
  hash (tbl (3 * seed + j)) name % nrSlots

/-- Outcome of the `insert` lambda of `computeCuckooHash`: placement with
the new table, giving up after the search limit, or the
DuplicateAttributeName throw.  `k` threads the eviction-RNG draw
counter. -/
inductive InsertResult where
  | placed (ht : List Nat) (k : Nat)
  | failed (k : Nat)
  | dup
  deriving DecidableEq, Repr

/-- The `insert` lambda of `Builder::computeCuckooHash` (lines 855–906).
`rng k % 3` models the `k`-th draw of
`uniform_int_distribution<uint8_t>(0,2)` from the `mt19937_64` engine
(both from the C++ standard library; the engine is constructed once per
`computeCuckooHash` call with the fixed seed 123456789, so the stream
`rng` is a pure function of that constant).  The fuel is the number of
remaining do-while iterations (`searchLimit + 1` at entry). -/
def insertLoop (hash : Nat → List Nat → Nat) (tbl : Nat → Nat) (rng : Nat → Nat)
    (nameAt : Nat → List Nat) (nrSlots seed : Nat) :
    Nat → Nat → List Nat → Nat → Bool → InsertResult
  | 0, k, _, _, _ => .failed k
  | fuel + 1, k, ht, offset, checkUniq =>
    let name := nameAt offset
    let p0 := cuckooPos hash tbl seed 0 nrSlots name
    let p1 := cuckooPos hash tbl seed 1 nrSlots name
    let p2 := cuckooPos hash tbl seed 2 nrSlots name
    if ht.getD p0 0 = 0 then .placed (ht.set p0 offset) k
    else if checkUniq ∧ nameAt (ht.getD p0 0) = name then .dup
    else if ht.getD p1 0 = 0 then .placed (ht.set p1 offset) k
    else if checkUniq ∧ nameAt (ht.getD p1 0) = name then .dup
    else if ht.getD p2 0 = 0 then .placed (ht.set p2 offset) k
    else if checkUniq ∧ nameAt (ht.getD p2 0) = name then .dup
    else
      let i := rng k % 3
      let p := if i = 0 then p0 else if i = 1 then p1 else p2
      insertLoop hash tbl rng nameAt nrSlots seed fuel (k + 1)
        (ht.set p offset) (ht.getD p 0) false

/-- Outcome of one full insertion pass (one seed attempt). -/
inductive PassResult where
  | done (ht : List Nat) (k : Nat)
  | giveup (k : Nat)
  | dup
  deriving DecidableEq, Repr

/-- The member loop of one seed attempt (lines 917–923): insert every
member offset in document order; each call starts with
`checkUniqueness = options->checkAttributeUniqueness`. -/
def insertAll (hash : Nat → List Nat → Nat) (tbl : Nat → Nat) (rng : Nat → Nat)
    (nameAt : Nat → List Nat) (nrSlots seed limit : Nat) (cu : Bool) :
    List Nat → Nat → List Nat → PassResult
  | [], k, ht => .done ht k
  | o :: os, k, ht =>
    match insertLoop hash tbl rng nameAt nrSlots seed (limit + 1) k ht o cu with
    | .placed ht' k' => insertAll hash tbl rng nameAt nrSlots seed limit cu os k' ht'
    | .failed k' => .giveup k'
    | .dup => .dup

/-- Outcome of the seed loop (seeds 0..255 at a fixed slot count). -/
inductive SeedResult where
  | found (ht : List Nat) (seed k : Nat)
  | exhausted (k : Nat)
  | dup
  deriving DecidableEq, Repr

/-- The seed do-while loop of `computeCuckooHash` (lines 910–928): 256
attempts (the uint8 seed wraps to 0), each over a fresh zeroed table. -/
def seedLoop (hash : Nat → List Nat → Nat) (tbl : Nat → Nat) (rng : Nat → Nat)
    (nameAt : Nat → List Nat) (limit : Nat) (cu : Bool) (members : List Nat)
    (nrSlots : Nat) : Nat → Nat → Nat → SeedResult
  | 0, _, k => .exhausted k
  | c + 1, seed, k =>
    match insertAll hash tbl rng nameAt nrSlots seed limit cu members k
        (List.replicate nrSlots 0) with
    | .done ht k' => .found ht seed k'
    | .giveup k' => seedLoop hash tbl rng nameAt limit cu members nrSlots c (seed + 1) k'
    | .dup => .dup

/-- The outer table-size loop of `computeCuckooHash` (lines 908–931);
`while (true)` in the source, so it is given fuel, `none` meaning the
loop has not terminated within the fuel.  Note the search limit is
computed once from the initial slot count and not recomputed after
growth, as in the source. -/
def sizeLoop (hash : Nat → List Nat → Nat) (tbl : Nat → Nat) (rng : Nat → Nat)
    (nameAt : Nat → List Nat) (limit : Nat) (cu : Bool) (members : List Nat) :
    Nat → Nat → Nat → Option (Except VPackError (List Nat × Nat × Nat))
  | 0, _, _ => none
  | f + 1, nrSlots, k =>
    match seedLoop hash tbl rng nameAt limit cu members nrSlots 256 0 k with
    | .found ht seed _ => some (.ok (ht, seed, nrSlots))
    | .dup => some (.error .duplicateAttributeName)
    | .exhausted k' => sizeLoop hash tbl rng nameAt limit cu members f (nrSlots * 110 / 100) k'

/-- `Builder::computeCuckooHash` (lines 840–933), parameterized over the
XXH64 hash, `Slice::seedTable` and the eviction-RNG stream (see
`insertLoop`); returns `(ht, seed, nrSlots)` on success. -/
def computeCuckooHash (hash : Nat → List Nat → Nat) (tbl : Nat → Nat)
    (rng : Nat → Nat) (fuel : Nat) (b : BuilderState) :
    Option (Except VPackError (List Nat × Nat × Nat)) :=
  match b.frames with
  | [] => none
  | (tos, index) :: _ =>
    let nrSlots := index.length + index.length * 3 / 20 + 1
    let searchLimit := if nrSlots < 400 then nrSlots * 3 else 1200 + Nat.sqrt nrSlots
    let nameAt := fun off => (findAttrName b.start (tos + off)).getD []
    sizeLoop hash tbl rng nameAt searchLimit b.options.checkAttributeUniqueness
      index fuel nrSlots 0

/-- `Builder::close` (lines 271–413), with `computeCuckooHash`'s external
collaborators passed through; `none` means the cuckoo search exceeded its
fuel. -/
def close (hash : Nat → List Nat → Nat) (tbl : Nat → Nat) (rng : Nat → Nat)
    (fuel : Nat) (b : BuilderState) : Option (Except VPackError BuilderState) :=
  match b.frames with
  | [] => some (.error .builderNeedOpenCompound)
  | (tos, index) :: rest =>
    let head := b.start tos
    let isArray : Bool := head == 0x06 || head == 0x13
    if index.isEmpty then some (.ok (closeEmptyArrayOrObject b tos isArray rest))
    else
      let tryCompact : Bool := head == 0x13 || head == 0x14 ||
        (head == 0x06 && b.options.buildUnindexedArrays) ||
        (head == 0x0b && (b.options.buildUnindexedObjects || index.length == 1))
      let compacted := if tryCompact then
          closeCompactArrayOrObject b tos isArray index rest
        else none
      match compacted with
      | some b' => some (.ok b')
      | none =>
        if isArray then some (.ok (closeArray b tos index rest))
        else
          let b1 := { b with start := setByte b.start tos 0x0b }
          match computeCuckooHash hash tbl rng fuel b1 with
          | none => none
          | some (.error e) => some (.error e)
          | some (.ok (ht, seed, nrSlots)) =>
            some (.ok (closeObjectTail b1 tos index ht seed nrSlots rest))

/-! ### The atomic value encoder `Builder::set(Value const&)` -/

/-- `ValueType` (velocypack/Value.h, names as in the source). -/
inductive ValueType where
  | noneType
  | nullType
  | boolType
  | doubleType
  | extType
  | smallIntType
  | intType
  | uintType
  | utcDateType
  | stringType
  | arrayType
  | objectType
  | binaryType
  | illegalType
  | minKeyType
  | maxKeyType
  | bcdType
  | customType
  deriving DecidableEq, Repr

/-- A C++ `double` payload, abstracted by the projections the Builder
observes: its IEEE-754 bit pattern, `static_cast<int64_t>`,
`static_cast<uint64_t>`, and the sign test `< 0.0`.  Floating-point
arithmetic itself is never performed by the Builder. -/
structure MDouble where
  bits : Nat
  trunc : Int
  truncU : Nat
  neg : Bool
  deriving DecidableEq, Repr

/-- The C-type tag and payload of a `Value` (`Value::CType`). -/
inductive CValue where
  | cnone
  | cbool (v : Bool)
  | cdouble (v : MDouble)
  | cint (v : Int)
  | cuint (v : Nat)
  | cstring (s : List Nat)
  | ccharptr (s : List Nat)
  | cvoidptr (p : Nat)
  deriving DecidableEq, Repr

/-- A `Value`: declared `ValueType`, C payload, and the `_unindexed`
hint. -/
structure MValue where
  vt : ValueType
  c : CValue
  unindexed : Bool
  deriving DecidableEq, Repr

/-- `toInt64` (velocypack-common.h, outside src/).  Modelled from the
spec: `Int↔UInt reinterprets bits` — two's-complement reinterpretation of
a uint64. -/
def toInt64 (u : Nat) : Int := if u < 2 ^ 63 then (u : Int) else (u : Int) - 2 ^ 64

/-- Modelled from the spec: the minimal signed width used by `addInt`
(Builder.h, outside src/): `width w = minimum needed to represent v with
sign-extension`. -/
def intLength (v : Int) : Nat :=
  if -0x80 ≤ v ∧ v ≤ 0x7f then 1
  else if -0x8000 ≤ v ∧ v ≤ 0x7fff then 2
  else if -0x800000 ≤ v ∧ v ≤ 0x7fffff then 3
  else if -0x80000000 ≤ v ∧ v ≤ 0x7fffffff then 4
  else if -0x8000000000 ≤ v ∧ v ≤ 0x7fffffffff then 5
  else if -0x800000000000 ≤ v ∧ v ≤ 0x7fffffffffff then 6
  else if -0x80000000000000 ≤ v ∧ v ≤ 0x7fffffffffffff then 7
  else 8

/-- Modelled from the spec: the minimal unsigned width used by `addUInt`
and `appendUInt` (Builder.h, outside src/). -/
def uintLength (v : Nat) : Nat :=
  if v ≤ 0xff then 1
  else if v ≤ 0xffff then 2
  else if v ≤ 0xffffff then 3
  else if v ≤ 0xffffffff then 4
  else if v ≤ 0xffffffffff then 5
  else if v ≤ 0xffffffffffff then 6
  else if v ≤ 0xffffffffffffff then 7
  else 8

/-- `_start[_pos++] = v`. -/
def appendByte (b : BuilderState) (v : Nat) : BuilderState :=
  { b with start := setByte b.start b.pos v, pos := b.pos + 1 }

/-- `appendLength(x, w)` (Builder.h, outside src/).  Modelled from the
spec: `write w little-endian bytes of v` at the append position. -/
def appendLength (b : BuilderState) (x w : Nat) : BuilderState :=
  { b with start := storeLEBytes b.start b.pos w x, pos := b.pos + w }

/-- `memcpy(_start + _pos, …); _pos += size`. -/
def appendList (b : BuilderState) (s : List Nat) : BuilderState :=
  { b with start := writeBytesList b.start b.pos s, pos := b.pos + s.length }

/-- Modelled from the spec: `addInt` (Builder.h, outside src/): signed
little-endian two's complement, minimal width `w`, head byte
`0x1f + w`. -/
def addInt (b : BuilderState) (v : Int) : BuilderState :=
  let w := intLength v
  appendLength (appendByte b (0x1f + w)) (v % ((2 : Int) ^ (8 * w))).toNat w

/-- Modelled from the spec: `addUInt` (Builder.h, outside src/): unsigned
little-endian, minimal width `w`, head byte `0x27 + w`. -/
def addUInt (b : BuilderState) (v : Nat) : BuilderState :=
  let w := uintLength v
  appendLength (appendByte b (0x27 + w)) v w

/-- Modelled from the spec: `addUTCDate` (Builder.h, outside src/): head
byte 0x1c, fixed 8-byte signed little-endian. -/
def addUTCDate (b : BuilderState) (v : Int) : BuilderState :=
  appendLength (appendByte b 0x1c) (v % ((2 : Int) ^ 64)).toNat 8

/-- Modelled from the spec: `appendUInt(v, baseTag)` (Builder.h, outside
src/): head byte `baseTag + w` with minimal width `w`, then `w`
little-endian bytes of `v`. -/
def appendUIntTagged (b : BuilderState) (v base : Nat) : BuilderState :=
  let w := uintLength v
  appendLength (appendByte b (base + w)) v w

/-- Modelled from the spec: `addArray`/`addObject` open a compound
(Builder.h, outside src/): the head byte is written at the current
position, `Nine reserved bytes have been left at tos+1..tos+8`
(their content is unspecified until close), and a fresh frame is
pushed. -/
def openCompound (b : BuilderState) (head : Nat) : BuilderState :=
  { b with start := setByte b.start b.pos head,
           frames := (b.pos, []) :: b.frames,
           pos := b.pos + 9 }

/-- Modelled from the spec: `checkKeyIsString` (Builder.h, outside src/).
Spec §4.2: `if the innermost open compound is an object and no key has
been written yet for the current pair, the next set must produce a
String; else BuilderKeyMustBeString`; §4.3: `A keyWritten flag alternates
to enforce key-then-value pairing.` -/
def checkKeyIsString (b : BuilderState) (isString : Bool) :
    BuilderState × Option VPackError :=
  match b.frames with
  | [] => (b, none)
  | (tos, _) :: _ =>
    if b.start tos = 0x0b ∨ b.start tos = 0x14 then
      if b.keyWritten then ({ b with keyWritten := false }, none)
      else if isString then ({ b with keyWritten := true }, none)
      else (b, some .builderKeyMustBeString)
    else (b, none)

/-- `Builder::set(Value const&)` (Builder.cpp lines 459–711).  The
parameters `fpOfInt`/`fpOfUInt` abstract the bit pattern of
`static_cast<double>` of an int64/uint64 payload (floating point is
outside the model); every other branch is translated literally.  Errors
are returned together with the state exactly as it stands at the throw
site. -/
def setV (fpOfInt : Int → Nat) (fpOfUInt : Nat → Nat) (b0 : BuilderState)
    (item : MValue) : BuilderState × Option VPackError :=
  match checkKeyIsString b0 (item.vt == ValueType.stringType) with
  | (b, some e) => (b, some e)
  | (b, none) =>
    match item.vt with
    | .noneType => (b, some .builderUnexpectedType)
    | .nullType => (appendByte b 0x18, none)
    | .boolType =>
      match item.c with
      | .cbool v => (appendByte b (if v then 0x1a else 0x19), none)
      | _ => (b, some .builderUnexpectedValue)
    | .doubleType =>
      match item.c with
      | .cdouble d => (appendLength (appendByte b 0x1b) d.bits 8, none)
      | .cint v => (appendLength (appendByte b 0x1b) (fpOfInt v) 8, none)
      | .cuint v => (appendLength (appendByte b 0x1b) (fpOfUInt v) 8, none)
      | _ => (b, some .builderUnexpectedValue)
    | .extType =>
      if b.options.disallowExternals then (b, some .builderExternalsDisallowed)
      else
        match item.c with
        | .cvoidptr p => (appendLength (appendByte b 0x1d) p 8, none)
        | _ => (b, some .builderUnexpectedValue)
    | .smallIntType =>
      match (match item.c with
             | .cdouble d => some d.trunc
             | .cint v => some v
             | .cuint v => some (toInt64 v)
             | _ => none) with
      | none => (b, some .builderUnexpectedValue)
      | some vv =>
        if vv < -6 ∨ vv > 9 then (b, some .numberOutOfRange)
        else if 0 ≤ vv then (appendByte b (vv + 0x30).toNat, none)
        else (appendByte b (vv + 0x40).toNat, none)
    | .intType =>
      match item.c with
      | .cdouble d => (addInt b d.trunc, none)
      | .cint v => (addInt b v, none)
      | .cuint v => (addInt b (toInt64 v), none)
      | _ => (b, some .builderUnexpectedValue)
    | .uintType =>
      match item.c with
      | .cdouble d =>
        if d.neg then (b, some .builderUnexpectedValue)
        else (addUInt b d.truncU, none)
      | .cint v =>
        if v < 0 then (b, some .builderUnexpectedValue)
        else (addUInt b v.toNat, none)
      | .cuint v => (addUInt b v, none)
      | _ => (b, some .builderUnexpectedValue)
    | .utcDateType =>
      match item.c with
      | .cdouble d => (addUTCDate b d.trunc, none)
      | .cint v => (addUTCDate b v, none)
      | .cuint v => (addUTCDate b (toInt64 v), none)
      | _ => (b, some .builderUnexpectedValue)
    | .stringType =>
      match item.c with
      | .cstring s | .ccharptr s =>
        if s.length ≤ 126 then
          (appendList (appendByte b (0x40 + s.length)) s, none)
        else
          (appendList (appendLength (appendByte b 0xbf) s.length 8) s, none)
      | _ => (b, some .builderUnexpectedValue)
    | .arrayType => (openCompound b (if item.unindexed then 0x13 else 0x06), none)
    | .objectType => (openCompound b (if item.unindexed then 0x14 else 0x0b), none)
    | .binaryType =>
      match item.c with
      | .cstring s | .ccharptr s =>
        (appendList (appendUIntTagged b s.length 0xbf) s, none)
      | _ => (b, some .builderUnexpectedValue)
    | .illegalType => (appendByte b 0x17, none)
    | .minKeyType => (appendByte b 0x1e, none)
    | .maxKeyType => (appendByte b 0x1f, none)
    | .bcdType => (b, some .notImplemented)
    | .customType => (b, some .builderUnexpectedType)

/-! ### Derived quantities and predicates used by the theorems -/

/-- The total byte length (`pos - tos` after closing) produced by
`closeArray` when it chooses width `w`, as a function of the length used
so far, the member count, and the table flag (`needIndexTable =
needNrSubs = t`): the `w = 1` path moves the body down by 6 (table) or 7
(no table) bytes, a table adds `w·n` bytes, and the `w = 8` table form
appends the 8 trailing count bytes. -/
def arrAt (lenUsed n : Nat) (t : Bool) (w : Nat) : Nat :=
  lenUsed - (if w = 1 then (if t then 6 else 7) else 0) +
    (if t then w * n else 0) + (if w = 8 ∧ t = true then 8 else 0)

/-- The total byte length produced by the object tail of `close` at
width `w`: the `w = 1` path moves the body down by 4, the slot table adds
`w·nrSlots`, and the trailing `nrSlots`/`seed` fields add 5 (`w = 4`)
resp. the trailing count/`nrSlots`/`seed` add 17 (`w = 8`). -/
def objAt (lenUsed nrSlots w : Nat) : Nat :=
  lenUsed - (if w = 1 then 4 else 0) + w * nrSlots +
    (if w = 4 then 5 else 0) + (if w = 8 then 17 else 0)

/-- The fitting condition actually tested by the object width selection
(lines 317–329): note it counts the slot table but not the 5 (`w = 4`)
resp. 17 (`w = 8`) trailing bytes. -/
def objCond (lenUsed nrSlots w : Nat) : Prop :=
  lenUsed + w * nrSlots - (if w = 1 then 4 else 0) ≤ 2 ^ (8 * w) - 1

/-- A value `L` fits in an unsigned field of `w` bytes. -/
def widthFits (L w : Nat) : Prop := L ≤ 2 ^ (8 * w) - 1

/-- The candidate slot `h_j(name of member at offset off) mod nrSlots`. -/
def slotOf (hash : Nat → List Nat → Nat) (tbl : Nat → Nat)
    (nameAt : Nat → List Nat) (nrSlots seed j off : Nat) : Nat :=
  cuckooPos hash tbl seed j nrSlots (nameAt off)

/-- The offset `o` is stored in some slot of the table. -/
def inTable (ht : List Nat) (o : Nat) : Prop :=
  o ≠ 0 ∧ ∃ s, s < ht.length ∧ ht.getD s 0 = o

/-- The structural invariant of the cuckoo table: every occupant sits at
one of its own three candidate slots, and all of its earlier candidate
slots are occupied.  (This is the invariant behind the source comment at
lines 881–887: a duplicate name can never reach an empty slot before
meeting its twin.) -/
def goodTable (hash : Nat → List Nat → Nat) (tbl : Nat → Nat)
    (nameAt : Nat → List Nat) (nrSlots seed : Nat) (ht : List Nat) : Prop :=
  ∀ s, s < ht.length → ht.getD s 0 ≠ 0 →
    ∃ j, j < 3 ∧ slotOf hash tbl nameAt nrSlots seed j (ht.getD s 0) = s ∧
      ∀ i, i < j → ht.getD (slotOf hash tbl nameAt nrSlots seed i (ht.getD s 0)) 0 ≠ 0

/-! ### Concrete inputs for witnesses and counterexamples -/

/-- A buffer whose first bytes are the given list (0 elsewhere). -/
def bufOf (l : List Nat) : Nat → Nat := fun i => l.getD i 0

/-- All options off. -/
def exOpts : BOptions := ⟨false, false, false, false⟩

/-- Only `checkAttributeUniqueness` on. -/
def exOptsU : BOptions := ⟨false, false, true, false⟩

/-- A concrete stand-in for XXH64: sum of the name bytes plus the seed
value. -/
def exHash : Nat → List Nat → Nat := fun s name => s + name.foldl (· + ·) 0

/-- A concrete stand-in for `Slice::seedTable`. -/
def exTbl : Nat → Nat := fun i => i

/-- A concrete eviction-RNG stream. -/
def exRng : Nat → Nat := fun _ => 0

/-- The byte at index `i` of a successful close result. -/
def resultByte (r : Option (Except VPackError BuilderState)) (i : Nat) : Option Nat :=
  match r with
  | some (.ok s) => some (s.start i)
  | _ => none

/-- The append position of a successful close result. -/
def resultPos (r : Option (Except VPackError BuilderState)) : Option Nat :=
  match r with
  | some (.ok s) => some s.pos
  | _ => none

/-- The error of a failed close result. -/
def resultErr (r : Option (Except VPackError BuilderState)) : Option VPackError :=
  match r with
  | some (.error e) => some e
  | _ => none

/-- The successful payload of a `computeCuckooHash` result. -/
def cuckooOk (r : Option (Except VPackError (List Nat × Nat × Nat))) :
    Option (List Nat × Nat × Nat) :=
  match r with
  | some (.ok v) => some v
  | _ => none

/-- A closed builder (empty stack). -/
def exClosedState : BuilderState :=
  { start := bufOf [0x18], pos := 1, frames := [], keyWritten := false,
    options := exOpts }

/-- An open array with no members yet. -/
def exOpenEmptyArr : BuilderState :=
  { start := bufOf [0x06], pos := 9, frames := [(0, [])], keyWritten := false,
    options := exOpts }

/-- An open array `[1, 2, 3]` (three equal-length SmallInts). -/
def exArr123 : BuilderState :=
  { start := bufOf [0x06, 0, 0, 0, 0, 0, 0, 0, 0, 0x31, 0x32, 0x33], pos := 12,
    frames := [(0, [9, 10, 11])], keyWritten := false, options := exOpts }

/-- The same `[1, 2, 3]` opened compact (head 0x13). -/
def exArr123C : BuilderState :=
  { start := bufOf [0x13, 0, 0, 0, 0, 0, 0, 0, 0, 0x31, 0x32, 0x33], pos := 12,
    frames := [(0, [9, 10, 11])], keyWritten := false, options := exOpts }

/-- An object `{"A": 1}` with one member, opened indexed (head 0x0b). -/
def exObj1 : BuilderState :=
  { start := bufOf [0x0b, 0, 0, 0, 0, 0, 0, 0, 0, 0x41, 65, 0x31], pos := 12,
    frames := [(0, [9])], keyWritten := false, options := exOpts }

/-- A nested object `{"A": 1, "B": 2}` whose header starts at offset 1
(inside an open array at offset 0). -/
def exObjNested : BuilderState :=
  { start := bufOf [0x06, 0x0b, 0, 0, 0, 0, 0, 0, 0, 0, 0x41, 65, 0x31, 0x41, 66, 0x32],
    pos := 16, frames := [(1, [9, 12]), (0, [1])], keyWritten := false,
    options := exOpts }

/-- A root-level object `{"A": 1, "B": 2}` (header at offset 0). -/
def exObj2 : BuilderState :=
  { start := bufOf [0x0b, 0, 0, 0, 0, 0, 0, 0, 0, 0x41, 65, 0x31, 0x41, 66, 0x32],
    pos := 15, frames := [(0, [9, 12])], keyWritten := false, options := exOpts }

/-- An object `{"A": 1, "A": 2}` with a duplicated key and
`checkAttributeUniqueness` on. -/
def exObjDup : BuilderState :=
  { start := bufOf [0x0b, 0, 0, 0, 0, 0, 0, 0, 0, 0x41, 65, 0x31, 0x41, 65, 0x32],
    pos := 16, frames := [(0, [9, 12])], keyWritten := false,
    options := exOptsU }

/-- A two-member root object whose body is 4294967271 bytes long
(`pos = 4294967280`), driving the object width selection to the
`w = 4` boundary. -/
def exObjBig : BuilderState :=
  { start := fun i =>
      if i = 0 then 0x0b else if i = 9 then 0x41 else if i = 10 then 65
      else if i = 12 then 0x41 else if i = 13 then 66 else 0,
    pos := 4294967280, frames := [(0, [9, 12])], keyWritten := false,
    options := exOpts }

/-! ### Buffer read lemmas -/

theorem setByte_at (d : Nat → Nat) (i v : Nat) : setByte d i v i = v := by
  simp [setByte]

theorem setByte_ne (d : Nat → Nat) (i v j : Nat) (h : j ≠ i) :
    setByte d i v j = d j := by
  simp [setByte, h]

theorem storeLEBytes_lo (d : Nat → Nat) (base w x j : Nat) (h : j < base) :
    storeLEBytes d base w x j = d j := by
  simp only [storeLEBytes]
  rw [if_neg]; omega

theorem storeLEBytes_hi (d : Nat → Nat) (base w x j : Nat) (h : base + w ≤ j) :
    storeLEBytes d base w x j = d j := by
  simp only [storeLEBytes]
  rw [if_neg]; omega

theorem storeLEBytes_in (d : Nat → Nat) (base w x k : Nat) (h : k < w) :
    storeLEBytes d base w x (base + k) = x / 256 ^ k % 256 := by
  simp only [storeLEBytes]
  rw [if_pos (by omega)]
  have h2 : base + k - base = k := by omega
  rw [h2]

theorem memmoveBytes_lo (d : Nat → Nat) (dst src len j : Nat) (h : j < dst) :
    memmoveBytes d dst src len j = d j := by
  simp only [memmoveBytes]
  rw [if_neg]; omega

theorem memmoveBytes_hi (d : Nat → Nat) (dst src len j : Nat) (h : dst + len ≤ j) :
    memmoveBytes d dst src len j = d j := by
  simp only [memmoveBytes]
  rw [if_neg]; omega

theorem memmoveBytes_in (d : Nat → Nat) (dst src len k : Nat) (h : k < len) :
    memmoveBytes d dst src len (dst + k) = d (src + k) := by
  simp only [memmoveBytes]
  rw [if_pos (by omega)]
  congr 1
  omega

theorem writeBytesList_lo (d : Nat → Nat) (base : Nat) (s : List Nat) (j : Nat)
    (h : j < base) : writeBytesList d base s j = d j := by
  simp only [writeBytesList]
  rw [if_neg]; omega

theorem writeBytesList_hi (d : Nat → Nat) (base : Nat) (s : List Nat) (j : Nat)
    (h : base + s.length ≤ j) : writeBytesList d base s j = d j := by
  simp only [writeBytesList]
  rw [if_neg]; omega

theorem writeBytesList_in (d : Nat → Nat) (base : Nat) (s : List Nat) (k : Nat)
    (h : k < s.length) : writeBytesList d base s (base + k) = s.getD k 0 := by
  simp only [writeBytesList]
  rw [if_pos (by omega)]
  congr 1
  omega

theorem writeOffsets_lo (base w j : Nat) (l : List Nat) (d : Nat → Nat)
    (h : j < base) : writeOffsets d base w l j = d j := by
  induction l generalizing d base with
  | nil => rfl
  | cons x xs ih =>
    simp only [writeOffsets]
    rw [ih _ _ (by omega), storeLEBytes_lo _ _ _ _ _ h]

theorem writeOffsets_hi (base w j : Nat) (l : List Nat) (d : Nat → Nat)
    (h : base + w * l.length ≤ j) : writeOffsets d base w l j = d j := by
  induction l generalizing d base with
  | nil => rfl
  | cons x xs ih =>
    simp only [writeOffsets]
    simp only [List.length_cons] at h
    rw [ih _ _ (by nlinarith [Nat.mul_succ w xs.length]), storeLEBytes_hi]
    nlinarith [Nat.mul_succ w xs.length]

/-! ### C10 — removeLast error behaviour -/

/-- C10: `removeLast` on an empty nesting stack throws
BuilderNeedOpenCompound, while on an open compound with no members it
throws BuilderNeedSubvalue; in both cases the state (buffer and position)
is returned unchanged. -/
theorem removeLast_error_kinds (b : BuilderState) :
    (b.frames = [] →
      removeLast b = (b, some VPackError.builderNeedOpenCompound)) ∧
    (∀ tos rest, b.frames = (tos, []) :: rest →
      removeLast b = (b, some VPackError.builderNeedSubvalue)) := by
  constructor
  · intro h
    simp [removeLast, h]
  · intro tos rest h
    simp [removeLast, h]

/-- Witness for C10 at two concrete states: a closed builder and an open
empty array. -/
theorem removeLast_error_kinds_witness :
    removeLast exClosedState = (exClosedState, some VPackError.builderNeedOpenCompound) ∧
    removeLast exOpenEmptyArr = (exOpenEmptyArr, some VPackError.builderNeedSubvalue) :=
  ⟨(removeLast_error_kinds exClosedState).1 rfl,
   (removeLast_error_kinds exOpenEmptyArr).2 0 [] rfl⟩

/-! ### C8 — determinism of the cuckoo construction -/

/-- C8: `computeCuckooHash` is a pure function of the buffer contents,
the nesting stack and the options: two builders agreeing on those three
components (whatever their append position or key flag) produce the same
slot table, seed and slot count.  The eviction RNG enters only through
the stream `rng`, which in the source is generated by an `mt19937_64`
seeded with the fixed constant 123456789 and hence is itself a fixed
stream. -/
theorem computeCuckooHash_deterministic (hash : Nat → List Nat → Nat)
    (tbl rng : Nat → Nat) (fuel : Nat) (b1 b2 : BuilderState)
    (hst : b1.start = b2.start) (hfr : b1.frames = b2.frames)
    (hop : b1.options = b2.options) :
    computeCuckooHash hash tbl rng fuel b1 = computeCuckooHash hash tbl rng fuel b2 := by
  unfold computeCuckooHash
  rw [hst, hfr, hop]

/-- Witness for C8: two states sharing buffer, stack and options but
differing in `pos` and `keyWritten` give identical results. -/
theorem computeCuckooHash_deterministic_witness :
    computeCuckooHash exHash exTbl exRng 3 exObjNested =
      computeCuckooHash exHash exTbl exRng 3
        { exObjNested with pos := 999, keyWritten := true } :=
  computeCuckooHash_deterministic exHash exTbl exRng 3 _ _ rfl rfl rfl

/-! ### C7 — every `set(Value)` failure leaves `pos` and the written
bytes untouched -/

theorem checkKeyIsString_state (b : BuilderState) (s : Bool) :
    (checkKeyIsString b s).1.start = b.start ∧
    (checkKeyIsString b s).1.pos = b.pos ∧
    (checkKeyIsString b s).1.frames = b.frames ∧
    (checkKeyIsString b s).1.options = b.options := by
  rcases hf : b.frames with _ | ⟨⟨tos, idx⟩, rest⟩ <;>
    simp only [checkKeyIsString, hf] <;>
    [skip; split_ifs] <;>
    simp_all

/-- Every branch of `setV` either succeeds or returns a state with the
original position and buffer contents (the state at the throw site). -/
theorem setV_failure_aux (fpi : Int → Nat) (fpu : Nat → Nat)
    (b : BuilderState) (item : MValue) :
    (setV fpi fpu b item).2 = none ∨
    ((setV fpi fpu b item).1.pos = b.pos ∧
      ∀ i, (setV fpi fpu b item).1.start i = b.start i) := by
  rcases item with ⟨vt, c, u⟩
  have hp := checkKeyIsString_state b (vt == ValueType.stringType)
  unfold setV
  dsimp only
  rcases hck : checkKeyIsString b (vt == ValueType.stringType) with ⟨b', e?⟩
  rw [hck] at hp
  rcases e? with _ | e
  · dsimp only
    rcases vt <;> rcases c <;> dsimp only <;>
      first
        | exact Or.inl rfl
        | exact Or.inr ⟨hp.2.1, fun i => congrFun hp.1 i⟩
        | (split_ifs <;>
            first
              | exact Or.inl rfl
              | exact Or.inr ⟨hp.2.1, fun i => congrFun hp.1 i⟩)
  · exact Or.inr ⟨hp.2.1, fun i => congrFun hp.1 i⟩

/-- C7: whenever `set(Value)` throws (None type, payload/type mismatch,
SmallInt out of range, disallowed External, BCD, Custom, or the key
check), the append position `pos` and every byte of the buffer are
unchanged, so the caller may continue to use the Builder. -/
theorem setV_failure_preserves_state (fpi : Int → Nat) (fpu : Nat → Nat)
    (b : BuilderState) (item : MValue) (e : VPackError)
    (h : (setV fpi fpu b item).2 = some e) :
    (setV fpi fpu b item).1.pos = b.pos ∧
    ∀ i, (setV fpi fpu b item).1.start i = b.start i := by
  rcases setV_failure_aux fpi fpu b item with h' | h'
  · rw [h'] at h; cases h
  · exact h'

/-- Witness for C7: setting a SmallInt 99 (out of range) on a closed
builder fails with the position and a sample byte unchanged. -/
theorem setV_failure_preserves_state_witness :
    (setV (fun _ => 0) (fun _ => 0) exClosedState
        ⟨.smallIntType, .cint 99, false⟩).2 = some VPackError.numberOutOfRange ∧
    (setV (fun _ => 0) (fun _ => 0) exClosedState
        ⟨.smallIntType, .cint 99, false⟩).1.pos = exClosedState.pos ∧
    ∀ i, (setV (fun _ => 0) (fun _ => 0) exClosedState
        ⟨.smallIntType, .cint 99, false⟩).1.start i = exClosedState.start i :=
  ⟨by decide,
   setV_failure_preserves_state _ _ _ _ VPackError.numberOutOfRange (by decide)⟩

/-! ### C6 — SmallInt encoding -/

/-- C6: `set` with `ValueType::SmallInt` and an int64 payload `v` encodes
the single byte `v + 0x30` when `0 ≤ v ≤ 9` and `v + 0x40` when
`-6 ≤ v < 0`, and throws NumberOutOfRange for every `v` outside
`[-6, 9]` without writing anything (hypothesis `hk`: the builder is not
waiting for an object key, so the key check passes). -/
theorem setV_smallint (fpi : Int → Nat) (fpu : Nat → Nat) (b : BuilderState)
    (v : Int) (u : Bool) (hk : (checkKeyIsString b false).2 = none) :
    ((-6 ≤ v ∧ v ≤ 9) →
      (setV fpi fpu b ⟨.smallIntType, .cint v, u⟩).2 = none ∧
      (setV fpi fpu b ⟨.smallIntType, .cint v, u⟩).1.pos = b.pos + 1 ∧
      (setV fpi fpu b ⟨.smallIntType, .cint v, u⟩).1.start b.pos =
        (if 0 ≤ v then v + 0x30 else v + 0x40).toNat ∧
      ∀ i, i ≠ b.pos →
        (setV fpi fpu b ⟨.smallIntType, .cint v, u⟩).1.start i = b.start i) ∧
    ((v < -6 ∨ 9 < v) →
      (setV fpi fpu b ⟨.smallIntType, .cint v, u⟩).2 =
        some VPackError.numberOutOfRange ∧
      (setV fpi fpu b ⟨.smallIntType, .cint v, u⟩).1.pos = b.pos ∧
      ∀ i, (setV fpi fpu b ⟨.smallIntType, .cint v, u⟩).1.start i = b.start i) := by
  have hp := checkKeyIsString_state b false
  unfold setV
  have hEq : ((MValue.mk ValueType.smallIntType (CValue.cint v) u).vt ==
      ValueType.stringType) = false := rfl
  rw [hEq]
  rcases hck : checkKeyIsString b false with ⟨b', e?⟩
  rw [hck] at hp hk
  rcases e? with _ | e
  · dsimp only
    constructor
    · intro hv
      rw [if_neg (by omega)]
      have hb : b'.pos = b.pos := hp.2.1
      have hbs : b'.start = b.start := hp.1
      split_ifs with h0
      · refine ⟨rfl, by simp [appendByte, hb], ?_, ?_⟩
        · simp [appendByte, hb, setByte]
        · intro i hi
          simp [appendByte, hb, setByte, hi, hbs]
      · refine ⟨rfl, by simp [appendByte, hb], ?_, ?_⟩
        · simp [appendByte, hb, setByte]
        · intro i hi
          simp [appendByte, hb, setByte, hi, hbs]
    · intro hv
      rw [if_pos (by omega)]
      exact ⟨rfl, hp.2.1, fun i => congrFun hp.1 i⟩
  · simp at hk

/-- Witness for C6 at `v = -3` on a closed builder: byte 0x3d is
appended. -/
theorem setV_smallint_witness :
    (checkKeyIsString exClosedState false).2 = none ∧
    ((-6 ≤ (-3 : Int) ∧ (-3 : Int) ≤ 9) →
      (setV (fun _ => 0) (fun _ => 0) exClosedState
          ⟨.smallIntType, .cint (-3), false⟩).2 = none ∧
      (setV (fun _ => 0) (fun _ => 0) exClosedState
          ⟨.smallIntType, .cint (-3), false⟩).1.pos = exClosedState.pos + 1 ∧
      (setV (fun _ => 0) (fun _ => 0) exClosedState
          ⟨.smallIntType, .cint (-3), false⟩).1.start exClosedState.pos =
        (if 0 ≤ (-3 : Int) then (-3 : Int) + 0x30 else (-3 : Int) + 0x40).toNat ∧
      ∀ i, i ≠ exClosedState.pos →
        (setV (fun _ => 0) (fun _ => 0) exClosedState
            ⟨.smallIntType, .cint (-3), false⟩).1.start i = exClosedState.start i) :=
  ⟨by decide,
   (setV_smallint (fun _ => 0) (fun _ => 0) exClosedState (-3) false (by decide)).1⟩

/-! ### C2 — equal-stride arrays never get an index table -/

theorem arrayOffsetSize_cases (L n : Nat) (t s : Bool) :
    arrayOffsetSize L n t s = 1 ∨ arrayOffsetSize L n t s = 2 ∨
    arrayOffsetSize L n t s = 4 ∨ arrayOffsetSize L n t s = 8 := by
  unfold arrayOffsetSize
  split_ifs <;> simp

theorem objectOffsetSize_cases (L S : Nat) :
    objectOffsetSize L S = 1 ∨ objectOffsetSize L S = 2 ∨
    objectOffsetSize L S = 4 ∨ objectOffsetSize L S = 8 := by
  unfold objectOffsetSize
  split_ifs <;> simp

theorem stride_getD (index : List Nat) (s : Nat)
    (hstep : ∀ k, k + 1 < index.length →
      index.getD (k + 1) 0 = index.getD k 0 + s) :
    ∀ k, k < index.length → index.getD k 0 = index.getD 0 0 + k * s := by
  intro k
  induction k with
  | zero => simp
  | succ k ih =>
    intro hk
    rw [hstep k (by omega), ih (by omega)]
    ring

theorem arrayNoTable_of_stride (L : Nat) (index : List Nat) (s : Nat)
    (hn : index ≠ [])
    (hstep : ∀ k, k + 1 < index.length →
      index.getD (k + 1) 0 = index.getD k 0 + s)
    (hlast : L = index.getD (index.length - 1) 0 + s) :
    arrayNoTable L index = true := by
  unfold arrayNoTable
  have hpos : 1 ≤ index.length := by
    cases index with
    | nil => exact absurd rfl hn
    | cons x xs => simp
  rcases Nat.lt_or_ge index.length 2 with h2 | h2
  · have h1 : index.length = 1 := by omega
    simp [h1]
  · obtain ⟨m, hm⟩ : ∃ m, index.length = m + 2 := ⟨index.length - 2, by omega⟩
    have hget := stride_getD index s hstep
    have hg1 : index.getD 1 0 = index.getD 0 0 + s := by
      have := hget 1 (by omega)
      omega
    have hsub : index.getD 1 0 - index.getD 0 0 = s := by omega
    have hglast : index.getD (index.length - 1) 0 =
        index.getD 0 0 + (m + 1) * s := by
      have h := hget (index.length - 1) (by omega)
      rw [h, hm]
      simp
    have hmul : (m + 1) * s + s = (m + 2) * s := by ring
    rw [if_neg (by omega)]
    rw [if_pos]
    · rw [if_neg]
      · rw [hsub]
        unfold adjacentStrideOk
        rw [List.all_eq_true]
        intro k hk
        rw [List.mem_range] at hk
        have h' : index.getD (k + 2) 0 = index.getD (k + 1) 0 + s :=
          hstep (k + 1) (by omega)
        simp only [decide_eq_true_eq]
        omega
      · rw [hsub]
        omega
    · rw [hsub, hm]
      omega

/-- C2: closing a non-empty array in which all elements have identical
encoded length `s` (each member starts `s` bytes after its predecessor
and the last member ends `s` bytes before `pos`) yields a head byte in
0x02..0x05 — the equal-stride form — never 0x06..0x09. -/
theorem closeArray_equal_stride_head (b : BuilderState) (tos : Nat)
    (index : List Nat) (rest : List Frame) (s : Nat)
    (hn : index ≠ [])
    (hstep : ∀ k, k + 1 < index.length →
      index.getD (k + 1) 0 = index.getD k 0 + s)
    (hlast : b.pos = tos + index.getD (index.length - 1) 0 + s) :
    0x02 ≤ (closeArray b tos index rest).start tos ∧
    (closeArray b tos index rest).start tos ≤ 0x05 := by
  have hnt : arrayNoTable (b.pos - tos) index = true :=
    arrayNoTable_of_stride _ index s hn hstep (by omega)
  simp only [closeArray, hnt, Bool.not_true, Bool.false_eq_true, if_false,
    false_and, Bool.and_self]
  rcases arrayOffsetSize_cases (b.pos - tos) index.length false false with
    h | h | h | h <;>
    simp only [h] <;> norm_num <;>
    rw [storeLEBytes_lo _ _ _ _ _ (by omega)] <;>
    simp [setByte_at]

/-- Witness for C2 at the array `[1, 2, 3]` of SmallInts (stride 1):
the head byte satisfies the stride-form bounds. -/
theorem closeArray_equal_stride_head_witness :
    ([9, 10, 11] ≠ ([] : List Nat)) ∧
    (12 : Nat) = 0 + [9, 10, 11].getD ([9, 10, 11].length - 1) 0 + 1 ∧
    (0x02 ≤ (closeArray exArr123 0 [9, 10, 11] []).start 0 ∧
      (closeArray exArr123 0 [9, 10, 11] []).start 0 ≤ 0x05) :=
  ⟨by decide, by decide,
   closeArray_equal_stride_head exArr123 0 [9, 10, 11] [] 1 (by decide)
     (by
       intro k hk
       rcases k with _ | _ | k
       · rfl
       · rfl
       · rw [show ([9, 10, 11] : List Nat).length = 3 from rfl] at hk
         omega)
     (by decide)⟩

/-! ### C4 — the compact closer -/

theorem gvvlAux_pos (f v : Nat) : 1 ≤ gvvlAux f v := by
  cases f with
  | zero => simp [gvvlAux]
  | succ f => unfold gvvlAux; split_ifs <;> omega

theorem gvvlAux_le_of_lt_pow (f : Nat) : ∀ v k : Nat, 1 ≤ k → v < 128 ^ k →
    gvvlAux f v ≤ k := by
  induction f with
  | zero => intro v k h1 _; simpa [gvvlAux] using h1
  | succ f ih =>
    intro v k h1 h
    unfold gvvlAux
    split_ifs with hv
    · exact h1
    · have hk2 : 2 ≤ k := by
        by_contra hk
        have : k = 1 := by omega
        subst this
        simp at h
        omega
      have hdiv : v / 128 < 128 ^ (k - 1) := by
        rw [Nat.div_lt_iff_lt_mul (by norm_num)]
        calc v < 128 ^ k := h
        _ = 128 ^ (k - 1) * 128 := by
            rw [← Nat.pow_succ]
            congr 1
            omega
      have := ih (v / 128) (k - 1) (by omega) hdiv
      omega

theorem pow_le_of_gvvlAux (f : Nat) : ∀ v : Nat, 2 ≤ gvvlAux f v →
    128 ^ (gvvlAux f v - 1) ≤ v := by
  induction f with
  | zero => intro v h; simp [gvvlAux] at h
  | succ f ih =>
    intro v h
    unfold gvvlAux at h ⊢
    split_ifs at h ⊢ with hv
    · omega
    · have hg := gvvlAux_pos f (v / 128)
      rcases Nat.lt_or_ge (gvvlAux f (v / 128)) 2 with h2 | h2
      · have : gvvlAux f (v / 128) = 1 := by omega
        rw [this]
        simpa using (by omega : 128 ≤ v)
      · have hle := ih (v / 128) h2
        have : 1 + gvvlAux f (v / 128) - 1 = (gvvlAux f (v / 128) - 1) + 1 := by
          omega
        rw [this, Nat.pow_succ]
        calc 128 ^ (gvvlAux f (v / 128) - 1) * 128 ≤ v / 128 * 128 :=
              Nat.mul_le_mul_right 128 hle
        _ ≤ v := Nat.div_mul_le_self v 128

theorem gvvlAux_mono (f : Nat) : ∀ v w : Nat, v ≤ w →
    gvvlAux f v ≤ gvvlAux f w := by
  induction f with
  | zero => intro v w _; simp [gvvlAux]
  | succ f ih =>
    intro v w h
    unfold gvvlAux
    split_ifs with h1 h2 h2
    · omega
    · have := gvvlAux_pos f (w / 128)
      omega
    · omega
    · have := ih (v / 128) (w / 128) (Nat.div_le_div_right h)
      omega

theorem lt_pow_gvvlAux (f : Nat) : ∀ v : Nat, v < 128 ^ f →
    v < 128 ^ (gvvlAux f v) := by
  induction f with
  | zero =>
    intro v h
    simp at h
    simp [gvvlAux, h]
  | succ f ih =>
    intro v h
    unfold gvvlAux
    split_ifs with hv
    · simpa using by omega
    · have hdiv : v / 128 < 128 ^ f := by
        rw [Nat.div_lt_iff_lt_mul (by norm_num)]
        calc v < 128 ^ (f + 1) := h
        _ = 128 ^ f * 128 := by rw [Nat.pow_succ]
      have h1 := ih (v / 128) hdiv
      have : v < (v / 128 + 1) * 128 := by omega
      calc v < (v / 128 + 1) * 128 := this
      _ ≤ 128 ^ (gvvlAux f (v / 128)) * 128 := by
          have : v / 128 + 1 ≤ 128 ^ (gvvlAux f (v / 128)) := h1
          exact Nat.mul_le_mul_right 128 this
      _ = 128 ^ (1 + gvvlAux f (v / 128)) := by
          rw [Nat.add_comm, Nat.pow_succ]

theorem vvBytesAux_length (f : Nat) : ∀ v : Nat,
    (vvBytesAux f v).length = gvvlAux f v := by
  induction f with
  | zero => intro v; simp [vvBytesAux, gvvlAux]
  | succ f ih =>
    intro v
    unfold vvBytesAux gvvlAux
    split_ifs <;> simp [ih] <;> omega

theorem succ_le_pow_aux (k : Nat) : k + 1 ≤ 127 * 128 ^ k := by
  calc k + 1 ≤ 2 ^ k := Nat.lt_two_pow k
  _ ≤ 128 ^ k := Nat.pow_le_pow_left (by norm_num) k
  _ ≤ 127 * 128 ^ k := by nlinarith [Nat.pos_pow_of_pos k (show 0 < 128 by norm_num)]

theorem gvvlAux_le_fuel (f : Nat) : ∀ v, gvvlAux f v ≤ f + 1 := by
  induction f with
  | zero => intro v; simp [gvvlAux]
  | succ f ih =>
    intro v
    unfold gvvlAux
    split_ifs
    · omega
    · have := ih (v / 128)
      omega

/-- The `byteSize`/`bLen` reconciliation of `closeCompactArrayOrObject`
is exact: afterwards the varint width of `byteSize` is precisely `bLen`,
and `byteSize` decomposes as body + head byte + length field + count
field.  (This settles the spec's §9 open question positively.) -/
theorem compactLenInfo_spec (pos tos n : Nat) (hfit : pos < 2 ^ 60) :
    getVariableValueLength (compactLenInfo pos tos n).1 =
      (compactLenInfo pos tos n).2 ∧
    (compactLenInfo pos tos n).1 =
      pos - (tos + 8) + getVariableValueLength n + (compactLenInfo pos tos n).2 := by
  have hpow : (2 : Nat) ^ 60 + 11 ≤ 128 ^ 9 := by norm_num
  unfold compactLenInfo
  simp only [getVariableValueLength]
  set nLen := gvvlAux 10 n with hnLen
  set B0 := pos - (tos + 8) + nLen with hB0
  set b0 := gvvlAux 10 B0 with hb0def
  have hnb : nLen ≤ 11 := gvvlAux_le_fuel 10 n
  have hB0lt9 : B0 < 128 ^ 9 := by omega
  have hB0lt : B0 < 128 ^ 10 :=
    lt_of_lt_of_le hB0lt9 (Nat.pow_le_pow_right (by norm_num) (by norm_num))
  have hlt : B0 < 128 ^ b0 := lt_pow_gvvlAux 10 B0 hB0lt
  have hb0pos : 1 ≤ b0 := gvvlAux_pos 10 B0
  have hstep : b0 + 1 ≤ 127 * 128 ^ b0 := succ_le_pow_aux b0
  have hpowsum : 128 ^ b0 + 127 * 128 ^ b0 = 128 ^ (b0 + 1) := by ring
  have hmono1 : b0 ≤ gvvlAux 10 (B0 + b0) :=
    gvvlAux_mono 10 B0 (B0 + b0) (by omega)
  have hup1 : gvvlAux 10 (B0 + b0) ≤ b0 + 1 :=
    gvvlAux_le_of_lt_pow 10 _ _ (by omega) (by omega)
  split_ifs with hne
  · have h1 : gvvlAux 10 (B0 + b0) = b0 + 1 := by omega
    have hup2 : gvvlAux 10 (B0 + b0 + 1) ≤ b0 + 1 :=
      gvvlAux_le_of_lt_pow 10 _ _ (by omega) (by omega)
    have hmono2 : b0 + 1 ≤ gvvlAux 10 (B0 + b0 + 1) := by
      calc b0 + 1 = gvvlAux 10 (B0 + b0) := h1.symm
      _ ≤ _ := gvvlAux_mono 10 _ _ (by omega)
    dsimp only
    omega
  · dsimp only
    simp only [ne_eq, not_not] at hne
    omega

theorem compactCommit_head (b : BuilderState) (tos : Nat) (isArray : Bool)
    (index : List Nat) (rest : List Frame)
    (h9 : tos + 9 ≤ b.pos) (hsmall : b.pos < 2 ^ 60) :
    (compactCommit b tos isArray index rest).start tos =
      if isArray then 0x13 else 0x14 := by
  obtain ⟨hWeq, hBdec⟩ := compactLenInfo_spec b.pos tos index.length hsmall
  have hnpos : 1 ≤ getVariableValueLength index.length := gvvlAux_pos 10 _
  have hbpos : 1 ≤ (compactLenInfo b.pos tos index.length).2 := by
    rw [← hWeq]; exact gvvlAux_pos 10 _
  simp only [compactCommit]
  rw [writeBytesList_lo _ _ _ _ (by omega),
    writeBytesList_lo _ _ _ _ (by omega)]
  by_cases hmv : tos + 9 < b.pos
  · rw [if_pos hmv, memmoveBytes_lo _ _ _ _ _ (by omega), setByte_at]
  · rw [if_neg hmv, setByte_at]

/-- C4: the compact closer commits iff the reconciled varint byte-length
field needs fewer than 9 bytes; on commit the result has head 0x13/0x14,
the varint byte length at `tos+1`, the body moved to `tos+1+bLen`, the
varint member count (bytes reversed) at the trailing position, and
`pos` lands at `tos + byteSize`; otherwise `close` falls back to the
normal closer — `closeArray`, whose first action rewrites the head to
0x06, for arrays, and the indexed-object path on the state with head
rewritten to 0x0b for objects. -/
theorem closeCompact_spec (b : BuilderState) (tos : Nat) (index : List Nat)
    (rest : List Frame) (isArray : Bool)
    (h9 : tos + 9 ≤ b.pos) (hsmall : b.pos < 2 ^ 60) :
    ((closeCompactArrayOrObject b tos isArray index rest).isSome ↔
      (compactLenInfo b.pos tos index.length).2 < 9) ∧
    (∀ b', closeCompactArrayOrObject b tos isArray index rest = some b' →
      b'.start tos = (if isArray then 0x13 else 0x14) ∧
      b'.pos = tos + (compactLenInfo b.pos tos index.length).1 ∧
      b'.frames = rest ∧
      (∀ k, k < (compactLenInfo b.pos tos index.length).2 →
        b'.start (tos + 1 + k) =
          (variableValueBytes (compactLenInfo b.pos tos index.length).1).getD k 0) ∧
      (∀ i, i < b.pos - (tos + 9) →
        b'.start (tos + 1 + (compactLenInfo b.pos tos index.length).2 + i) =
          b.start (tos + 9 + i)) ∧
      (∀ k, k < getVariableValueLength index.length →
        b'.start (tos + (compactLenInfo b.pos tos index.length).1 -
            getVariableValueLength index.length + k) =
          (variableValueBytes index.length).reverse.getD k 0)) ∧
    (∀ hash tbl rng fuel,
      b.frames = (tos, index) :: rest → index ≠ [] →
      9 ≤ (compactLenInfo b.pos tos index.length).2 →
      (b.start tos = 0x13 →
        close hash tbl rng fuel b = some (.ok (closeArray b tos index rest))) ∧
      (b.start tos = 0x14 →
        close hash tbl rng fuel b =
          (match computeCuckooHash hash tbl rng fuel
              { b with start := setByte b.start tos 0x0b } with
            | none => none
            | some (.error e) => some (.error e)
            | some (.ok (ht, seed, nrSlots)) =>
              some (.ok (closeObjectTail
                { b with start := setByte b.start tos 0x0b } tos index ht seed
                nrSlots rest))))) := by
  obtain ⟨hWeq, hBdec⟩ := compactLenInfo_spec b.pos tos index.length hsmall
  have hnpos : 1 ≤ getVariableValueLength index.length := gvvlAux_pos 10 _
  have hbpos : 1 ≤ (compactLenInfo b.pos tos index.length).2 := by
    rw [← hWeq]; exact gvvlAux_pos 10 _
  have hlenBytes : (variableValueBytes (compactLenInfo b.pos tos index.length).1).length =
      (compactLenInfo b.pos tos index.length).2 := by
    rw [← hWeq]; exact vvBytesAux_length 10 _
  have hnBytes : (variableValueBytes index.length).length =
      getVariableValueLength index.length := vvBytesAux_length 10 _
  refine ⟨?_, ?_, ?_⟩
  · unfold closeCompactArrayOrObject
    split_ifs with h <;> simp [h]
  · intro b' hsome
    unfold closeCompactArrayOrObject at hsome
    split_ifs at hsome with hbl
    · rw [Option.some.injEq] at hsome
      subst hsome
      refine ⟨?_, ?_, ?_, ?_, ?_, ?_⟩
      · exact compactCommit_head b tos isArray index rest h9 hsmall
      · simp only [compactCommit]
        omega
      · simp [compactCommit]
      · intro k hk
        simp only [compactCommit]
        rw [writeBytesList_lo _ _ _ _ (by omega)]
        have hp : tos + 1 + k = (tos + 1) + k := by omega
        rw [hp, writeBytesList_in _ _ _ k (by omega)]
      · intro i hi
        simp only [compactCommit]
        rw [writeBytesList_lo _ _ _ _ (by omega),
          writeBytesList_hi _ _ _ _ (by omega)]
        rw [if_pos (by omega)]
        have hp : tos + 1 + (compactLenInfo b.pos tos index.length).2 + i =
            (tos + (1 + (compactLenInfo b.pos tos index.length).2)) + i := by omega
        rw [hp, memmoveBytes_in _ _ _ _ i hi, setByte_ne _ _ _ _ (by omega)]
      · intro k hk
        simp only [compactCommit]
        have hp : tos + (compactLenInfo b.pos tos index.length).1 -
            getVariableValueLength index.length + k =
            (tos + (compactLenInfo b.pos tos index.length).1 -
              getVariableValueLength index.length) + k := by omega
        rw [hp, writeBytesList_in _ _ _ k (by simp [hnBytes, hk])]
  · intro hash tbl rng fuel hfr hne hge
    have hnone : ∀ ia, closeCompactArrayOrObject b tos ia index rest = none := by
      intro ia
      unfold closeCompactArrayOrObject
      rw [if_neg (by omega)]
    constructor
    · intro hhead
      unfold close
      rw [hfr]
      simp only [hhead, List.isEmpty_eq_true, hnone]
      rw [if_neg (by simpa using hne)]
      norm_num
    · intro hhead
      unfold close
      rw [hfr]
      simp only [hhead, List.isEmpty_eq_true, hnone]
      rw [if_neg (by simpa using hne)]
      norm_num

/-- Witness for C4 at the compact array `[1, 2, 3]` (head 0x13). -/
theorem closeCompact_spec_witness :
    (0 : Nat) + 9 ≤ exArr123C.pos ∧ exArr123C.pos < 2 ^ 60 ∧
    ((closeCompactArrayOrObject exArr123C 0 true [9, 10, 11] []).isSome ↔
      (compactLenInfo exArr123C.pos 0 ([9, 10, 11] : List Nat).length).2 < 9) :=
  ⟨by decide, by decide,
   (closeCompact_spec exArr123C 0 [9, 10, 11] [] true (by decide) (by decide)).1⟩

/-! ### C3 — offset-width selection -/

theorem arrAt_w1t (L n : Nat) : arrAt L n true 1 = L - 6 + n := by simp [arrAt]
theorem arrAt_w1f (L n : Nat) : arrAt L n false 1 = L - 7 := by simp [arrAt]
theorem arrAt_w2t (L n : Nat) : arrAt L n true 2 = L + 2 * n := by simp [arrAt]
theorem arrAt_w2f (L n : Nat) : arrAt L n false 2 = L := by simp [arrAt]
theorem arrAt_w4t (L n : Nat) : arrAt L n true 4 = L + 4 * n := by simp [arrAt]
theorem arrAt_w4f (L n : Nat) : arrAt L n false 4 = L := by simp [arrAt]
theorem arrAt_w8t (L n : Nat) : arrAt L n true 8 = L + 8 * n + 8 := by simp [arrAt]
theorem arrAt_w8f (L n : Nat) : arrAt L n false 8 = L := by simp [arrAt]
theorem objAt_w1 (L S : Nat) : objAt L S 1 = L - 4 + S := by simp [objAt]
theorem objAt_w2 (L S : Nat) : objAt L S 2 = L + 2 * S := by simp [objAt]
theorem objAt_w4 (L S : Nat) : objAt L S 4 = L + 4 * S + 5 := by simp [objAt]
theorem objAt_w8 (L S : Nat) : objAt L S 8 = L + 8 * S + 17 := by simp [objAt]
theorem widthFits_def (L w : Nat) : widthFits L w ↔ L ≤ 2 ^ (8 * w) - 1 :=
  Iff.rfl
theorem arrayOffsetSize_t (L n : Nat) :
    arrayOffsetSize L n true true =
      if L + n - 6 ≤ 0xff then 1 else if L + 2 * n ≤ 0xffff then 2
      else if L + 4 * n ≤ 0xffffffff then 4 else 8 := by
  simp [arrayOffsetSize]
theorem arrayOffsetSize_f (L n : Nat) :
    arrayOffsetSize L n false false =
      if L - 7 ≤ 0xff then 1 else if L ≤ 0xffff then 2
      else if L ≤ 0xffffffff then 4 else 8 := by
  simp [arrayOffsetSize]
theorem objCond_def (L S w : Nat) :
    objCond L S w ↔ L + w * S - (if w = 1 then 4 else 0) ≤ 2 ^ (8 * w) - 1 :=
  Iff.rfl

theorem closeObjectTail_pos (b : BuilderState) (tos : Nat) (index ht : List Nat)
    (seed nrSlots : Nat) (rest : List Frame) (h9 : tos + 9 ≤ b.pos) :
    (closeObjectTail b tos index ht seed nrSlots rest).pos =
      tos + objAt (b.pos - tos) nrSlots (objectOffsetSize (b.pos - tos) nrSlots) := by
  simp only [closeObjectTail]
  rcases objectOffsetSize_cases (b.pos - tos) nrSlots with hw | hw | hw | hw <;>
    simp only [hw, objAt_w1, objAt_w2, objAt_w4, objAt_w8] <;>
    (try norm_num) <;>
    omega

/-- C3 (counterexample): a two-member root object with body length
4294967271 (`pos = 4294967280`) closes with width 4 (head 0x0d), but its
final total byte length is 4294967297, which does **not** fit in
`2^(8·4)`: the object width test omits the 5 trailing `nrSlots`/`seed`
bytes of the w=4 variant. -/
theorem widthSelection_counterexample :
    resultByte (close exHash exTbl exRng 3 exObjBig) 0 = some 0x0d ∧
    resultPos (close exHash exTbl exRng 3 exObjBig) = some 4294967297 ∧
    ¬ widthFits 4294967297 4 := by
  refine ⟨by decide, by decide, by rw [widthFits_def]; decide⟩

/-- C3 (amended): the chosen width is the smallest `w ∈ {1,2,4,8}`
satisfying the code's fitting test.  For arrays the test is exact: the
chosen width is the smallest whose final total byte length `arrAt` fits
in `2^(8w)`.  For objects the test `objCond` counts the slot table but
not the 5 (w=4) resp. 17 (w=8) trailing bytes, so the final length
`objAt` exceeds the tested quantity by those amounts; for w ∈ {1,2} the
test is again exactly "the final length fits". -/
theorem widthSelection_minimal (b : BuilderState) (tos : Nat)
    (index ht : List Nat) (seed nrSlots : Nat) (rest : List Frame)
    (L : Nat) (t : Bool) (wA wO : Nat)
    (hL : L = b.pos - tos)
    (ht' : t = !arrayNoTable L index)
    (hwA : wA = arrayOffsetSize L index.length t t)
    (hwO : wO = objectOffsetSize L nrSlots)
    (h10 : tos + 10 ≤ b.pos)
    (harr8 : arrAt L index.length t 8 ≤ 2 ^ 64 - 1)
    (hobj8 : L + 8 * nrSlots ≤ 2 ^ 64 - 1) :
    (widthFits (arrAt L index.length t wA) wA ∧
      (1 < wA → ¬ widthFits (arrAt L index.length t 1) 1) ∧
      (2 < wA → ¬ widthFits (arrAt L index.length t 2) 2) ∧
      (4 < wA → ¬ widthFits (arrAt L index.length t 4) 4)) ∧
    (closeArray b tos index rest).pos = tos + arrAt L index.length t wA ∧
    (objCond L nrSlots wO ∧
      (1 < wO → ¬ objCond L nrSlots 1) ∧
      (2 < wO → ¬ objCond L nrSlots 2) ∧
      (4 < wO → ¬ objCond L nrSlots 4)) ∧
    (closeObjectTail b tos index ht seed nrSlots rest).pos =
      tos + objAt L nrSlots wO ∧
    (∀ w, w = 1 ∨ w = 2 →
      (objCond L nrSlots w ↔ widthFits (objAt L nrSlots w) w)) := by
  subst hL ht' hwA hwO
  have hL10 : 10 ≤ b.pos - tos := by omega
  refine ⟨?_, ?_, ?_, ?_, ?_⟩
  · cases hban : arrayNoTable (b.pos - tos) index
    case false =>
      simp only [hban, Bool.not_false] at harr8 ⊢
      simp only [arrAt_w8t] at harr8
      rcases arrayOffsetSize_cases (b.pos - tos) index.length true true with
        hw | hw | hw | hw <;>
        simp only [hw, arrAt_w1t, arrAt_w2t, arrAt_w4t, arrAt_w8t,
          widthFits_def] <;>
        rw [arrayOffsetSize_t] at hw <;>
        split_ifs at hw with h1 h2 h3 <;>
        (try norm_num) <;>
        omega
    case true =>
      simp only [hban, Bool.not_true] at harr8 ⊢
      simp only [arrAt_w8f] at harr8
      rcases arrayOffsetSize_cases (b.pos - tos) index.length false false with
        hw | hw | hw | hw <;>
        simp only [hw, arrAt_w1f, arrAt_w2f, arrAt_w4f, arrAt_w8f,
          widthFits_def] <;>
        rw [arrayOffsetSize_f] at hw <;>
        split_ifs at hw with h1 h2 h3 <;>
        (try norm_num) <;>
        omega
  · simp only [closeArray]
    cases hban : arrayNoTable (b.pos - tos) index
    case false =>
      simp only [hban, Bool.not_false]
      rcases arrayOffsetSize_cases (b.pos - tos) index.length true true with
        hw | hw | hw | hw <;>
        simp only [hw, arrAt_w1t, arrAt_w2t, arrAt_w4t, arrAt_w8t] <;>
        (try norm_num) <;>
        omega
    case true =>
      simp only [hban, Bool.not_true]
      rcases arrayOffsetSize_cases (b.pos - tos) index.length false false with
        hw | hw | hw | hw <;>
        simp only [hw, arrAt_w1f, arrAt_w2f, arrAt_w4f, arrAt_w8f] <;>
        (try norm_num) <;>
        omega
  · rcases objectOffsetSize_cases (b.pos - tos) nrSlots with hw | hw | hw | hw <;>
      simp only [hw, objCond_def] <;>
      unfold objectOffsetSize at hw <;>
      split_ifs at hw with h1 h2 h3 <;>
      (try norm_num) <;>
      omega
  · exact closeObjectTail_pos b tos index ht seed nrSlots rest (by omega)
  · intro w hw
    rcases hw with hw | hw <;> subst hw <;>
      simp only [objCond_def, objAt_w1, objAt_w2, widthFits_def] <;>
      (try norm_num) <;> omega

/-- Witness for C3 (amended) at the `["a","ab"]`-shaped array state and a
small object. -/
theorem widthSelection_minimal_witness :
    ((12 : Nat) = exArr123.pos - 0) ∧
    (0 : Nat) + 10 ≤ exArr123.pos ∧
    (closeArray exArr123 0 [9, 10, 11] []).pos =
      0 + arrAt 12 ([9, 10, 11] : List Nat).length
        (!arrayNoTable 12 [9, 10, 11])
        (arrayOffsetSize 12 ([9, 10, 11] : List Nat).length
          (!arrayNoTable 12 [9, 10, 11]) (!arrayNoTable 12 [9, 10, 11])) :=
  ⟨by decide, by decide,
   (widthSelection_minimal exArr123 0 [9, 10, 11] [3, 0, 9] 0 3 [] 12
      (!arrayNoTable 12 [9, 10, 11])
      (arrayOffsetSize 12 ([9, 10, 11] : List Nat).length
        (!arrayNoTable 12 [9, 10, 11]) (!arrayNoTable 12 [9, 10, 11]))
      (objectOffsetSize 12 3) (by decide) rfl rfl rfl (by decide)
      (by decide) (by decide)).2.1⟩

/-! ### C9 — single-member objects try the compact form first -/

/-- C9: closing an object opened in indexed form (head 0x0b) that holds
exactly one key/value pair attempts the compact encoding even when
`buildUnindexedObjects` is false, committing (head 0x14) whenever the
reconciled length field fits; the indexed cuckoo form runs only when the
compact attempt gives up. -/
theorem close_singleton_object_compact (hash : Nat → List Nat → Nat)
    (tbl rng : Nat → Nat) (fuel : Nat) (b : BuilderState) (tos : Nat)
    (index : List Nat) (rest : List Frame)
    (hfr : b.frames = (tos, index) :: rest)
    (hhead : b.start tos = 0x0b)
    (h1 : index.length = 1)
    (hu : b.options.buildUnindexedObjects = false)
    (h9 : tos + 9 ≤ b.pos) (hsmall : b.pos < 2 ^ 60) :
    ((compactLenInfo b.pos tos index.length).2 < 9 →
      close hash tbl rng fuel b =
        some (.ok (compactCommit b tos false index rest)) ∧
      (compactCommit b tos false index rest).start tos = 0x14) ∧
    (9 ≤ (compactLenInfo b.pos tos index.length).2 →
      close hash tbl rng fuel b =
        (match computeCuckooHash hash tbl rng fuel
            { b with start := setByte b.start tos 0x0b } with
          | none => none
          | some (.error e) => some (.error e)
          | some (.ok (ht, seed, nrSlots)) =>
            some (.ok (closeObjectTail
              { b with start := setByte b.start tos 0x0b } tos index ht seed
              nrSlots rest)))) := by
  have hne : index ≠ [] := by
    intro h
    rw [h] at h1
    simp at h1
  constructor
  · intro hlt
    constructor
    · unfold close
      rw [hfr]
      simp only [hhead, hu, h1]
      rw [if_neg (by simpa using hne)]
      norm_num
      unfold closeCompactArrayOrObject
      rw [if_pos hlt]
      simp
    · have := compactCommit_head b tos false index rest h9 hsmall
      simpa using this
  · intro hge
    unfold close
    rw [hfr]
    simp only [hhead, hu, h1]
    rw [if_neg (by simpa using hne)]
    norm_num
    unfold closeCompactArrayOrObject
    rw [if_neg (by omega)]

/-- Witness for C9 at the one-member object `{"A": 1}`. -/
theorem close_singleton_object_compact_witness :
    exObj1.frames = (0, [9]) :: [] ∧
    exObj1.start 0 = 0x0b ∧
    ((compactLenInfo exObj1.pos 0 ([9] : List Nat).length).2 < 9 →
      close exHash exTbl exRng 3 exObj1 =
        some (.ok (compactCommit exObj1 0 false [9] [])) ∧
      (compactCommit exObj1 0 false [9] []).start 0 = 0x14) :=
  ⟨rfl, by decide,
   (close_singleton_object_compact exHash exTbl exRng 3 exObj1 0 [9] []
     rfl (by decide) (by decide) (by decide) (by decide) (by decide)).1⟩

/-! ### C1 — indexed-object header layout -/

/-- C1 (counterexample): closing the nested two-member object of
`exObjNested` (header at `tos = 1`) picks width 1 and a cuckoo table
with 3 slots and seed 0, but the closed buffer's byte at `tos + 3` is 0
— the seed — not the slot count 3 required by the claimed layout: the
seed store (source line 404) uses the absolute buffer offset
`base + offsetSize`, without adding `tos`. -/
theorem objectHeaderLayout_counterexample :
    cuckooOk (computeCuckooHash exHash exTbl exRng 3 exObjNested) =
      some ([12, 0, 9], 0, 3) ∧
    resultByte (close exHash exTbl exRng 3 exObjNested) (1 + 3) = some 0 ∧
    (0 : Nat) ≠ 3 :=
  ⟨by decide, by decide, by decide⟩

/-- C1 (amended): the header layout written by the object-indexed tail
of `close`.  For w = 1 the byte length, count and nrSlots occupy one
byte each at `tos+1..tos+3` and the head byte is left untouched (0x0b),
but the seed goes to the **absolute** buffer offset 4, which coincides
with `tos+4` only for root objects; for w = 2 (head 0x0c) byte length,
count and nrSlots occupy `tos+1..tos+6` and the seed goes to absolute
offset 7; for w = 4 (head 0x0d) the byte length and count occupy
`tos+1..tos+8` while nrSlots (4 bytes) and the seed trail immediately
after the hash table; for w = 8 (head 0x0e) only the byte length is in
front (`tos+1..tos+8`) and count, nrSlots and seed trail after the
table. -/
theorem objectHeaderLayout (b : BuilderState) (tos : Nat)
    (index ht : List Nat) (seed nrSlots : Nat) (rest : List Frame)
    (st' : BuilderState)
    (h9 : tos + 9 ≤ b.pos) (hht : ht.length = nrSlots)
    (hst : st' = closeObjectTail b tos index ht seed nrSlots rest) :
    (objectOffsetSize (b.pos - tos) nrSlots = 1 → (tos = 0 ∨ 5 ≤ tos) →
      st'.start tos = b.start tos ∧
      st'.start (tos + 1) = (st'.pos - tos) % 256 ∧
      st'.start (tos + 2) = index.length % 256 ∧
      st'.start (tos + 3) = nrSlots % 256 ∧
      st'.start 4 = seed) ∧
    (objectOffsetSize (b.pos - tos) nrSlots = 2 → (tos = 0 ∨ 8 ≤ tos) →
      st'.start tos = 0x0c ∧
      (∀ k, k < 2 → st'.start (tos + 1 + k) = (st'.pos - tos) / 256 ^ k % 256) ∧
      (∀ k, k < 2 → st'.start (tos + 3 + k) = index.length / 256 ^ k % 256) ∧
      (∀ k, k < 2 → st'.start (tos + 5 + k) = nrSlots / 256 ^ k % 256) ∧
      st'.start 7 = seed) ∧
    (objectOffsetSize (b.pos - tos) nrSlots = 4 →
      st'.start tos = 0x0d ∧
      (∀ k, k < 4 → st'.start (tos + 1 + k) = (st'.pos - tos) / 256 ^ k % 256) ∧
      (∀ k, k < 4 → st'.start (tos + 5 + k) = index.length / 256 ^ k % 256) ∧
      (∀ k, k < 4 → st'.start (b.pos + 4 * nrSlots + k) = nrSlots / 256 ^ k % 256) ∧
      st'.start (b.pos + 4 * nrSlots + 4) = seed % 256) ∧
    (objectOffsetSize (b.pos - tos) nrSlots = 8 →
      st'.start tos = 0x0e ∧
      (∀ k, k < 8 → st'.start (tos + 1 + k) = (st'.pos - tos) / 256 ^ k % 256) ∧
      (∀ k, k < 8 → st'.start (b.pos + 8 * nrSlots + k) = index.length / 256 ^ k % 256) ∧
      (∀ k, k < 8 → st'.start (b.pos + 8 * nrSlots + 8 + k) = nrSlots / 256 ^ k % 256) ∧
      st'.start (b.pos + 8 * nrSlots + 16) = seed % 256) := by
  subst hst
  refine ⟨?_, ?_, ?_, ?_⟩
  · intro hw hguard
    simp only [closeObjectTail, hw]
    norm_num
    refine ⟨?_, ?_, ?_, ?_, ?_⟩
    · rw [setByte_ne _ _ _ _ (by omega), storeLEBytes_lo _ _ _ _ _ (by omega),
        storeLEBytes_lo _ _ _ _ _ (by omega), storeLEBytes_lo _ _ _ _ _ (by omega),
        writeOffsets_lo _ _ _ _ _ (by omega)]
      by_cases hmv : tos + 9 < b.pos
      · rw [if_pos hmv, memmoveBytes_lo _ _ _ _ _ (by omega)]
      · rw [if_neg hmv]
    · rw [setByte_ne _ _ _ _ (by omega), storeLEBytes_lo _ _ _ _ _ (by omega),
        storeLEBytes_lo _ _ _ _ _ (by omega)]
      have hp : tos + 1 = (tos + 1) + 0 := by omega
      rw [hp, storeLEBytes_in _ _ _ _ 0 (by omega)]
      norm_num
    · rw [setByte_ne _ _ _ _ (by omega), storeLEBytes_lo _ _ _ _ _ (by omega)]
      have hp : tos + 2 = (tos + 1 + 1) + 0 := by omega
      rw [hp, storeLEBytes_in _ _ _ _ 0 (by omega)]
      norm_num
    · rw [setByte_ne _ _ _ _ (by omega)]
      have hp : tos + 3 = (tos + 3) + 0 := by omega
      rw [hp, storeLEBytes_in _ _ _ _ 0 (by omega)]
      norm_num
    · rw [setByte_at]
  · intro hw hguard
    simp only [closeObjectTail, hw]
    norm_num
    refine ⟨?_, ?_, ?_, ?_, ?_⟩
    · rw [setByte_ne _ _ _ _ (by omega), storeLEBytes_lo _ _ _ _ _ (by omega),
        storeLEBytes_lo _ _ _ _ _ (by omega), storeLEBytes_lo _ _ _ _ _ (by omega),
        setByte_at]
    · intro k hk
      rw [setByte_ne _ _ _ _ (by omega), storeLEBytes_lo _ _ _ _ _ (by omega),
        storeLEBytes_lo _ _ _ _ _ (by omega)]
      have hp : tos + 1 + k = (tos + 1) + k := by omega
      rw [hp, storeLEBytes_in _ _ _ _ k (by omega)]
    · intro k hk
      rw [setByte_ne _ _ _ _ (by omega), storeLEBytes_lo _ _ _ _ _ (by omega)]
      have hp : tos + 3 + k = (tos + 2 + 1) + k := by omega
      rw [hp, storeLEBytes_in _ _ _ _ k (by omega)]
    · intro k hk
      rw [setByte_ne _ _ _ _ (by omega)]
      have hp : tos + 5 + k = (tos + 5) + k := by omega
      rw [hp, storeLEBytes_in _ _ _ _ k (by omega)]
    · rw [setByte_at]
  · intro hw
    simp only [closeObjectTail, hw]
    norm_num
    refine ⟨?_, ?_, ?_, ?_, ?_⟩
    · rw [storeLEBytes_lo _ _ _ _ _ (by omega), storeLEBytes_lo _ _ _ _ _ (by omega),
        storeLEBytes_lo _ _ _ _ _ (by omega), storeLEBytes_lo _ _ _ _ _ (by omega),
        setByte_at]
    · intro k hk
      rw [storeLEBytes_lo _ _ _ _ _ (by omega)]
      have hp : tos + 1 + k = (tos + 1) + k := by omega
      rw [hp, storeLEBytes_in _ _ _ _ k (by omega)]
    · intro k hk
      have hp : tos + 5 + k = (tos + 4 + 1) + k := by omega
      rw [hp, storeLEBytes_in _ _ _ _ k (by omega)]
    · intro k hk
      rw [storeLEBytes_hi _ _ _ _ _ (by omega), storeLEBytes_hi _ _ _ _ _ (by omega),
        storeLEBytes_lo _ _ _ _ _ (by omega)]
      have hp : b.pos + 4 * nrSlots + k = (b.pos + 4 * nrSlots) + k := by omega
      rw [hp, storeLEBytes_in _ _ _ _ k (by omega)]
    · rw [storeLEBytes_hi _ _ _ _ _ (by omega), storeLEBytes_hi _ _ _ _ _ (by omega)]
      have hp : b.pos + 4 * nrSlots + 4 = (b.pos + 4 * nrSlots + 4) + 0 := by omega
      rw [hp, storeLEBytes_in _ _ _ _ 0 (by omega)]
      norm_num
  · intro hw
    simp only [closeObjectTail, hw]
    norm_num
    refine ⟨?_, ?_, ?_, ?_, ?_⟩
    · rw [storeLEBytes_lo _ _ _ _ _ (by omega), storeLEBytes_lo _ _ _ _ _ (by omega),
        storeLEBytes_lo _ _ _ _ _ (by omega), storeLEBytes_lo _ _ _ _ _ (by omega),
        setByte_at]
    · intro k hk
      have hp : tos + 1 + k = (tos + 1) + k := by omega
      rw [hp, storeLEBytes_in _ _ _ _ k (by omega)]
    · intro k hk
      rw [storeLEBytes_hi _ _ _ _ _ (by omega), storeLEBytes_lo _ _ _ _ _ (by omega),
        storeLEBytes_lo _ _ _ _ _ (by omega)]
      have hp : b.pos + 8 * nrSlots + k = (b.pos + 8 * nrSlots) + k := by omega
      rw [hp, storeLEBytes_in _ _ _ _ k (by omega)]
    · intro k hk
      rw [storeLEBytes_hi _ _ _ _ _ (by omega), storeLEBytes_lo _ _ _ _ _ (by omega)]
      have hp : b.pos + 8 * nrSlots + 8 + k = (b.pos + 8 * nrSlots + 8) + k := by omega
      rw [hp, storeLEBytes_in _ _ _ _ k (by omega)]
    · rw [storeLEBytes_hi _ _ _ _ _ (by omega)]
      have hp : b.pos + 8 * nrSlots + 16 = (b.pos + 8 * nrSlots + 16) + 0 := by omega
      rw [hp, storeLEBytes_in _ _ _ _ 0 (by omega)]
      norm_num

/-- Witness for C1 (amended) at the root object `{"A": 1, "B": 2}`
(width 1). -/
theorem objectHeaderLayout_witness :
    (0 : Nat) + 9 ≤ exObj2.pos ∧ ([12, 0, 9] : List Nat).length = 3 ∧
    (objectOffsetSize (exObj2.pos - 0) 3 = 1 → ((0 : Nat) = 0 ∨ 5 ≤ (0 : Nat)) →
      (closeObjectTail exObj2 0 [9, 12] [12, 0, 9] 0 3 []).start 0 =
        exObj2.start 0 ∧
      (closeObjectTail exObj2 0 [9, 12] [12, 0, 9] 0 3 []).start (0 + 1) =
        ((closeObjectTail exObj2 0 [9, 12] [12, 0, 9] 0 3 []).pos - 0) % 256 ∧
      (closeObjectTail exObj2 0 [9, 12] [12, 0, 9] 0 3 []).start (0 + 2) =
        ([9, 12] : List Nat).length % 256 ∧
      (closeObjectTail exObj2 0 [9, 12] [12, 0, 9] 0 3 []).start (0 + 3) =
        3 % 256 ∧
      (closeObjectTail exObj2 0 [9, 12] [12, 0, 9] 0 3 []).start 4 = 0) :=
  ⟨by decide, by decide,
   (objectHeaderLayout exObj2 0 [9, 12] [12, 0, 9] 0 3 [] _ (by decide)
     (by decide) rfl).1⟩

/-! ### C5 — duplicate attribute names are always detected -/

theorem getD_set_self : ∀ (l : List Nat) (p v : Nat), p < l.length →
    (l.set p v).getD p 0 = v := by
  intro l
  induction l with
  | nil => intro p v h; simp at h
  | cons x xs ih =>
    intro p v h
    cases p with
    | zero => rfl
    | succ p =>
      simp only [List.set_cons_succ, List.getD_cons_succ]
      exact ih p v (by simpa using h)

theorem getD_set_ne : ∀ (l : List Nat) (p v s : Nat), s ≠ p →
    (l.set p v).getD s 0 = l.getD s 0 := by
  intro l
  induction l with
  | nil => intro p v s _; simp [List.set]
  | cons x xs ih =>
    intro p v s hne
    cases p with
    | zero =>
      cases s with
      | zero => exact absurd rfl hne
      | succ s => rfl
    | succ p =>
      cases s with
      | zero => rfl
      | succ s =>
        simp only [List.set_cons_succ, List.getD_cons_succ]
        exact ih p v s (by omega)

theorem getD_replicate : ∀ (m s : Nat), (List.replicate m 0).getD s 0 = 0 := by
  intro m
  induction m with
  | zero => intro s; simp
  | succ m ih =>
    intro s
    cases s with
    | zero => rfl
    | succ s => simpa [List.replicate] using ih s

theorem getD_mem : ∀ (l : List Nat) (m : Nat), m < l.length → l.getD m 0 ∈ l := by
  intro l
  induction l with
  | nil => intro m h; simp at h
  | cons x xs ih =>
    intro m h
    cases m with
    | zero => simp
    | succ m =>
      simp only [List.getD_cons_succ]
      exact List.mem_cons_of_mem x (ih m (by simpa using h))

theorem slotOf_lt (hash : Nat → List Nat → Nat) (tbl : Nat → Nat)
    (nameAt : Nat → List Nat) (S seed j off : Nat) (hS : 0 < S) :
    slotOf hash tbl nameAt S seed j off < S :=
  Nat.mod_lt _ hS

/-- Setting a slot `slotOf j off` whose earlier candidate slots are all
occupied preserves the cuckoo-table invariant. -/
theorem goodTable_set (hash : Nat → List Nat → Nat) (tbl : Nat → Nat)
    (nameAt : Nat → List Nat) (S seed : Nat) (ht : List Nat) (off j : Nat)
    (hS : ht.length = S) (hS0 : 0 < S) (hj : j < 3) (hoff : off ≠ 0)
    (hbelow : ∀ i, i < j → ht.getD (slotOf hash tbl nameAt S seed i off) 0 ≠ 0)
    (hgood : goodTable hash tbl nameAt S seed ht) :
    goodTable hash tbl nameAt S seed
      (ht.set (slotOf hash tbl nameAt S seed j off) off) := by
  intro s hs hocc
  have hlen : (ht.set (slotOf hash tbl nameAt S seed j off) off).length =
      ht.length := List.length_set ht _ _
  by_cases hsp : s = slotOf hash tbl nameAt S seed j off
  · subst hsp
    have hget : (ht.set (slotOf hash tbl nameAt S seed j off) off).getD
        (slotOf hash tbl nameAt S seed j off) 0 = off :=
      getD_set_self ht _ off (by rw [hS]; exact slotOf_lt hash tbl nameAt S seed j off hS0)
    rw [hget]
    refine ⟨j, hj, rfl, ?_⟩
    intro i hi
    by_cases hip : slotOf hash tbl nameAt S seed i off =
        slotOf hash tbl nameAt S seed j off
    · rw [hip, hget]
      exact hoff
    · rw [getD_set_ne ht _ off _ hip]
      exact hbelow i hi
  · have hget : (ht.set (slotOf hash tbl nameAt S seed j off) off).getD s 0 =
        ht.getD s 0 := getD_set_ne ht _ off s hsp
    rw [hget] at hocc ⊢
    obtain ⟨j', hj', hpos, hfill⟩ := hgood s (by omega) hocc
    refine ⟨j', hj', hpos, ?_⟩
    intro i hi
    by_cases hip : slotOf hash tbl nameAt S seed i (ht.getD s 0) =
        slotOf hash tbl nameAt S seed j off
    · rw [hip, getD_set_self ht _ off
        (by rw [hS]; exact slotOf_lt hash tbl nameAt S seed j off hS0)]
      exact hoff
    · rw [getD_set_ne ht _ off _ hip]
      exact hfill i hi

/-- If an insertion chain ends with a placement, the table keeps its
length, stays well-formed, retains every previous occupant, and gains the
inserted offset. -/
theorem insertLoop_placed (hash : Nat → List Nat → Nat) (tbl rng : Nat → Nat)
    (nameAt : Nat → List Nat) (S seed : Nat) :
    ∀ (fuel k : Nat) (ht : List Nat) (off : Nat) (cu : Bool)
      (ht' : List Nat) (k' : Nat),
    insertLoop hash tbl rng nameAt S seed fuel k ht off cu = .placed ht' k' →
    ht.length = S → 0 < S → off ≠ 0 →
    goodTable hash tbl nameAt S seed ht →
    ht'.length = S ∧ goodTable hash tbl nameAt S seed ht' ∧
      (∀ o, inTable ht o → inTable ht' o) ∧ inTable ht' off := by
  intro fuel
  induction fuel with
  | zero =>
    intro k ht off cu ht' k' hres
    exact absurd hres (by simp [insertLoop])
  | succ fuel ih =>
    intro k ht off cu ht' k' hres hS hS0 hoff hgood
    have hemp : ∀ jj, jj < 3 →
        ht.getD (slotOf hash tbl nameAt S seed jj off) 0 = 0 →
        (∀ i, i < jj → ht.getD (slotOf hash tbl nameAt S seed i off) 0 ≠ 0) →
        (ht.set (slotOf hash tbl nameAt S seed jj off) off).length = S ∧
          goodTable hash tbl nameAt S seed
            (ht.set (slotOf hash tbl nameAt S seed jj off) off) ∧
          (∀ o, inTable ht o →
            inTable (ht.set (slotOf hash tbl nameAt S seed jj off) off) o) ∧
          inTable (ht.set (slotOf hash tbl nameAt S seed jj off) off) off := by
      intro jj hjj hempty hbelow
      have hlt := slotOf_lt hash tbl nameAt S seed jj off hS0
      refine ⟨by rw [List.length_set]; exact hS,
        goodTable_set hash tbl nameAt S seed ht off jj hS hS0 hjj hoff hbelow hgood,
        ?_, ?_⟩
      · intro o ho
        obtain ⟨ho0, s, hs, hgs⟩ := ho
        have hsp : s ≠ slotOf hash tbl nameAt S seed jj off := by
          intro he
          rw [he, hempty] at hgs
          exact ho0 hgs.symm
        exact ⟨ho0, s, by rw [List.length_set]; exact hs,
          by rw [getD_set_ne ht _ off s hsp]; exact hgs⟩
      · exact ⟨hoff, slotOf hash tbl nameAt S seed jj off,
          by rw [List.length_set, hS]; exact hlt,
          getD_set_self ht _ off (by rw [hS]; exact hlt)⟩
    have key : ∀ jj, jj < 3 →
        (∀ i, i < 3 → ht.getD (slotOf hash tbl nameAt S seed i off) 0 ≠ 0) →
        insertLoop hash tbl rng nameAt S seed fuel (k + 1)
          (ht.set (slotOf hash tbl nameAt S seed jj off) off)
          (ht.getD (slotOf hash tbl nameAt S seed jj off) 0) false =
          .placed ht' k' →
        ht'.length = S ∧ goodTable hash tbl nameAt S seed ht' ∧
          (∀ o, inTable ht o → inTable ht' o) ∧ inTable ht' off := by
      intro jj hjj hall hres'
      have hlt := slotOf_lt hash tbl nameAt S seed jj off hS0
      have hlen1 : (ht.set (slotOf hash tbl nameAt S seed jj off) off).length = S := by
        rw [List.length_set]; exact hS
      have he : ht.getD (slotOf hash tbl nameAt S seed jj off) 0 ≠ 0 := hall jj hjj
      have hgood1 : goodTable hash tbl nameAt S seed
          (ht.set (slotOf hash tbl nameAt S seed jj off) off) :=
        goodTable_set hash tbl nameAt S seed ht off jj hS hS0 hjj hoff
          (fun i _ => hall i (by omega)) hgood
      obtain ⟨hlen', hgood', htrans, hin⟩ :=
        ih (k + 1) _ _ false ht' k' hres' hlen1 hS0 he hgood1
      refine ⟨hlen', hgood', ?_, ?_⟩
      · intro o ho
        obtain ⟨ho0, s, hs, hgs⟩ := ho
        by_cases hsp : s = slotOf hash tbl nameAt S seed jj off
        · subst hsp
          rw [← hgs]
          exact hin
        · exact htrans o ⟨ho0, s, by rw [List.length_set]; exact hs,
            by rw [getD_set_ne ht _ off s hsp]; exact hgs⟩
      · exact htrans off ⟨hoff, slotOf hash tbl nameAt S seed jj off,
          by rw [List.length_set, hS]; exact hlt,
          getD_set_self ht _ off (by rw [hS]; exact hlt)⟩
    simp only [insertLoop] at hres
    split_ifs at hres with h0 h1 h2 h3 h4 h5 hi0 hi1
    · obtain ⟨he, hk⟩ := InsertResult.placed.inj hres
      subst he; subst hk
      exact hemp 0 (by omega) h0 (fun i hi => absurd hi (Nat.not_lt_zero i))
    · obtain ⟨he, hk⟩ := InsertResult.placed.inj hres
      subst he; subst hk
      refine hemp 1 (by omega) h2 ?_
      intro i hi
      have hieq : i = 0 := by omega
      subst hieq
      exact h0
    · obtain ⟨he, hk⟩ := InsertResult.placed.inj hres
      subst he; subst hk
      refine hemp 2 (by omega) h4 ?_
      intro i hi
      rcases i with _ | _ | i
      · exact h0
      · exact h2
      · omega
    · refine key 0 (by omega) ?_ hres
      intro i hi
      rcases i with _ | _ | i
      · exact h0
      · exact h2
      · rcases i with _ | i
        · exact h4
        · omega
    · refine key 1 (by omega) ?_ hres
      intro i hi
      rcases i with _ | _ | i
      · exact h0
      · exact h2
      · rcases i with _ | i
        · exact h4
        · omega
    · refine key 2 (by omega) ?_ hres
      intro i hi
      rcases i with _ | _ | i
      · exact h0
      · exact h2
      · rcases i with _ | i
        · exact h4
        · omega

/-- With uniqueness checking on, inserting an offset whose name already
occupies the table hits its twin (or another occupant with the same name)
before ever reaching an empty slot, so the chain reports a duplicate. -/
theorem insertLoop_dup (hash : Nat → List Nat → Nat) (tbl rng : Nat → Nat)
    (nameAt : Nat → List Nat) (S seed : Nat) (fuel k : Nat) (ht : List Nat)
    (off om : Nat) (hom : inTable ht om)
    (hgood : goodTable hash tbl nameAt S seed ht)
    (hname : nameAt om = nameAt off) :
    insertLoop hash tbl rng nameAt S seed (fuel + 1) k ht off true = .dup := by
  obtain ⟨hom0, s, hs, hgs⟩ := hom
  obtain ⟨j, hj3, hpos, hfill⟩ := hgood s hs (by rw [hgs]; exact hom0)
  rw [hgs] at hpos hfill
  have hsl : ∀ i, slotOf hash tbl nameAt S seed i om =
      slotOf hash tbl nameAt S seed i off := by
    intro i
    simp only [slotOf, cuckooPos, hname]
  have hocc : ∀ i, i ≤ j → ht.getD (slotOf hash tbl nameAt S seed i off) 0 ≠ 0 := by
    intro i hi
    rw [← hsl i]
    rcases Nat.lt_or_ge i j with h | h
    · exact hfill i h
    · have hij : i = j := by omega
      subst hij
      rw [hpos, hgs]
      exact hom0
  have hmatch : nameAt (ht.getD (slotOf hash tbl nameAt S seed j off) 0) =
      nameAt off := by
    rw [← hsl j, hpos, hgs, hname]
  simp only [slotOf] at hocc hmatch
  simp only [insertLoop]
  rcases j with _ | _ | _ | j
  · rw [if_neg (hocc 0 (by omega)), if_pos ⟨trivial, hmatch⟩]
  · by_cases hd0 : nameAt (ht.getD (cuckooPos hash tbl seed 0 S (nameAt off)) 0) =
        nameAt off
    · rw [if_neg (hocc 0 (by omega)), if_pos ⟨trivial, hd0⟩]
    · rw [if_neg (hocc 0 (by omega)), if_neg (fun hc => hd0 hc.2),
        if_neg (hocc 1 (by omega)), if_pos ⟨trivial, hmatch⟩]
  · by_cases hd0 : nameAt (ht.getD (cuckooPos hash tbl seed 0 S (nameAt off)) 0) =
        nameAt off
    · rw [if_neg (hocc 0 (by omega)), if_pos ⟨trivial, hd0⟩]
    · by_cases hd1 : nameAt (ht.getD (cuckooPos hash tbl seed 1 S (nameAt off)) 0) =
          nameAt off
      · rw [if_neg (hocc 0 (by omega)), if_neg (fun hc => hd0 hc.2),
          if_neg (hocc 1 (by omega)), if_pos ⟨trivial, hd1⟩]
      · rw [if_neg (hocc 0 (by omega)), if_neg (fun hc => hd0 hc.2),
          if_neg (hocc 1 (by omega)), if_neg (fun hc => hd1 hc.2),
          if_neg (hocc 2 (by omega)), if_pos ⟨trivial, hmatch⟩]
  · omega

/-- With uniqueness checking on, a member pass can never complete when
either the table already holds an occupant whose name matches a pending
member, or two pending members share a name. -/
theorem insertAll_never_done (hash : Nat → List Nat → Nat) (tbl rng : Nat → Nat)
    (nameAt : Nat → List Nat) (S seed : Nat) :
    ∀ (ms : List Nat) (limit k : Nat) (ht : List Nat),
    ht.length = S → 0 < S →
    goodTable hash tbl nameAt S seed ht →
    (∀ o ∈ ms, o ≠ 0) →
    ((∃ om, inTable ht om ∧ ∃ b ∈ ms, nameAt om = nameAt b) ∨
      (∃ i j, i < j ∧ j < ms.length ∧
        nameAt (ms.getD i 0) = nameAt (ms.getD j 0))) →
    ∀ ht' k',
      insertAll hash tbl rng nameAt S seed limit true ms k ht ≠ .done ht' k' := by
  intro ms
  induction ms with
  | nil =>
    intro limit k ht _ _ _ _ hdup ht' k' _
    rcases hdup with ⟨om, _, b, hb, _⟩ | ⟨i, j, hij, hj, _⟩
    · exact absurd hb (List.not_mem_nil b)
    · simp only [List.length_nil] at hj
      omega
  | cons o os ih =>
    intro limit k ht hS hS0 hgood hnz hdup ht' k' hcontra
    have ho0 : o ≠ 0 := hnz o (List.mem_cons_self o os)
    have hnz' : ∀ o' ∈ os, o' ≠ 0 := fun o' ho' => hnz o' (List.mem_cons_of_mem o ho')
    rcases hres : insertLoop hash tbl rng nameAt S seed (limit + 1) k ht o true
        with ⟨ht1, k1⟩ | ⟨k1⟩ | ⟨⟩
    · simp only [insertAll, hres] at hcontra
      obtain ⟨hlen1, hgood1, htrans, hin⟩ :=
        insertLoop_placed hash tbl rng nameAt S seed (limit + 1) k ht o true ht1 k1
          hres hS hS0 ho0 hgood
      rcases hdup with ⟨om, homt, b, hb, hnm⟩ | ⟨i, j, hij, hj, hnm⟩
      · rcases List.mem_cons.mp hb with hbo | hbos
        · subst hbo
          have hd := insertLoop_dup hash tbl rng nameAt S seed limit k ht b om
            homt hgood hnm
          rw [hd] at hres
          exact InsertResult.noConfusion hres
        · exact ih limit k1 ht1 hlen1 hS0 hgood1 hnz'
            (Or.inl ⟨om, htrans om homt, b, hbos, hnm⟩) ht' k' hcontra
      · rcases i with _ | i
        · have hj1 : j = (j - 1) + 1 := by omega
          rw [hj1] at hnm
          simp only [List.getD_cons_zero, List.getD_cons_succ] at hnm
          have hjlen : j - 1 < os.length := by
            simp only [List.length_cons] at hj
            omega
          exact ih limit k1 ht1 hlen1 hS0 hgood1 hnz'
            (Or.inl ⟨o, hin, os.getD (j - 1) 0, getD_mem os (j - 1) hjlen, hnm⟩)
            ht' k' hcontra
        · have hj1 : j = (j - 1) + 1 := by omega
          rw [hj1] at hnm
          simp only [List.getD_cons_succ] at hnm
          have hjlen : j - 1 < os.length := by
            simp only [List.length_cons] at hj
            omega
          exact ih limit k1 ht1 hlen1 hS0 hgood1 hnz'
            (Or.inr ⟨i, j - 1, by omega, hjlen, hnm⟩) ht' k' hcontra
    · simp only [insertAll, hres] at hcontra
      exact PassResult.noConfusion hcontra
    · simp only [insertAll, hres] at hcontra
      exact PassResult.noConfusion hcontra

/-- With a duplicated name among the members, no seed attempt ever
produces a table. -/
theorem seedLoop_no_found (hash : Nat → List Nat → Nat) (tbl rng : Nat → Nat)
    (nameAt : Nat → List Nat) (limit : Nat) (ms : List Nat) (S : Nat)
    (hS0 : 0 < S) (hnz : ∀ o ∈ ms, o ≠ 0)
    (hdup : ∃ i j, i < j ∧ j < ms.length ∧
      nameAt (ms.getD i 0) = nameAt (ms.getD j 0)) :
    ∀ (c seed k : Nat) (ht : List Nat) (sd k' : Nat),
    seedLoop hash tbl rng nameAt limit true ms S c seed k ≠ .found ht sd k' := by
  intro c
  induction c with
  | zero =>
    intro seed k ht sd k' h
    simp only [seedLoop] at h
    exact SeedResult.noConfusion h
  | succ c ih =>
    intro seed k ht sd k' hcontra
    have hgoodRepl : goodTable hash tbl nameAt S seed (List.replicate S 0) :=
      fun s _ hocc => absurd (getD_replicate S s) hocc
    rcases hres : insertAll hash tbl rng nameAt S seed limit true ms k
        (List.replicate S 0) with ⟨ht1, k1⟩ | ⟨k1⟩ | ⟨⟩
    · exact insertAll_never_done hash tbl rng nameAt S seed ms limit k
        (List.replicate S 0) (List.length_replicate S 0) hS0 hgoodRepl hnz
        (Or.inr hdup) ht1 k1 hres
    · simp only [seedLoop, hres] at hcontra
      exact ih (seed + 1) k1 ht sd k' hcontra
    · simp only [seedLoop, hres] at hcontra
      exact SeedResult.noConfusion hcontra

/-- With a duplicated name among the members, the table-size loop either
runs out of fuel (the source loops forever) or reports the duplicate. -/
theorem sizeLoop_dup_result (hash : Nat → List Nat → Nat) (tbl rng : Nat → Nat)
    (nameAt : Nat → List Nat) (limit : Nat) (ms : List Nat)
    (hnz : ∀ o ∈ ms, o ≠ 0)
    (hdup : ∃ i j, i < j ∧ j < ms.length ∧
      nameAt (ms.getD i 0) = nameAt (ms.getD j 0)) :
    ∀ (f S k : Nat), 0 < S →
    sizeLoop hash tbl rng nameAt limit true ms f S k = none ∨
      sizeLoop hash tbl rng nameAt limit true ms f S k =
        some (.error .duplicateAttributeName) := by
  intro f
  induction f with
  | zero => intro S k _; exact Or.inl rfl
  | succ f ih =>
    intro S k hS0
    rcases hres : seedLoop hash tbl rng nameAt limit true ms S 256 0 k
        with ⟨ht1, sd, k1⟩ | ⟨k1⟩ | ⟨⟩
    · exact absurd hres
        (seedLoop_no_found hash tbl rng nameAt limit ms S hS0 hnz hdup
          256 0 k ht1 sd k1)
    · simp only [sizeLoop, hres]
      exact ih (S * 110 / 100) k1 (by omega)
    · simp only [sizeLoop, hres]
      exact Or.inr trivial

/-- When `checkAttributeUniqueness` is set, an object frame holding two
members whose attribute names are byte-equal can never yield a cuckoo
table: `computeCuckooHash` either reports DuplicateAttributeName or
never terminates (the name at each occupied candidate slot is compared
before any displacement, so the duplicate meets its twin before finding
an empty slot). -/
theorem computeCuckooHash_duplicate (hash : Nat → List Nat → Nat)
    (tbl rng : Nat → Nat) (fuel : Nat) (b : BuilderState) (tos : Nat)
    (index : List Nat) (rest : List Frame) (n : List Nat) (i j : Nat)
    (hfr : b.frames = (tos, index) :: rest)
    (hopt : b.options.checkAttributeUniqueness = true)
    (hij : i < j) (hj : j < index.length)
    (hnz : ∀ o ∈ index, o ≠ 0)
    (hni : findAttrName b.start (tos + index.getD i 0) = some n)
    (hnj : findAttrName b.start (tos + index.getD j 0) = some n) :
    computeCuckooHash hash tbl rng fuel b = none ∨
      computeCuckooHash hash tbl rng fuel b =
        some (.error .duplicateAttributeName) := by
  have hdup : ∃ i' j', i' < j' ∧ j' < index.length ∧
      (fun off => (findAttrName b.start (tos + off)).getD [])
          (index.getD i' 0) =
        (fun off => (findAttrName b.start (tos + off)).getD [])
          (index.getD j' 0) :=
    ⟨i, j, hij, hj, by simp only [hni, hnj]⟩
  have hres := sizeLoop_dup_result hash tbl rng
    (fun off => (findAttrName b.start (tos + off)).getD [])
    (if index.length + index.length * 3 / 20 + 1 < 400 then
        (index.length + index.length * 3 / 20 + 1) * 3
      else 1200 + Nat.sqrt (index.length + index.length * 3 / 20 + 1))
    index hnz hdup fuel (index.length + index.length * 3 / 20 + 1) 0 (by omega)
  simp only [computeCuckooHash, hfr, hopt]
  exact hres

/-- C5: when `checkAttributeUniqueness` is set, closing a non-compact
object that holds two members whose attribute names are byte-equal never
produces a closed object: `close` either reports DuplicateAttributeName
or (with the hash abstracted) never terminates.  The names at each
occupied candidate slot are compared before any cuckoo displacement, so
the duplicate meets its twin before it can reach an empty slot. -/
theorem close_object_duplicate (hash : Nat → List Nat → Nat)
    (tbl rng : Nat → Nat) (fuel : Nat) (b : BuilderState) (tos : Nat)
    (index : List Nat) (rest : List Frame) (n : List Nat) (i j : Nat)
    (hfr : b.frames = (tos, index) :: rest)
    (hhead : b.start tos = 0x0b)
    (hbuo : b.options.buildUnindexedObjects = false)
    (hopt : b.options.checkAttributeUniqueness = true)
    (hij : i < j) (hj : j < index.length)
    (hnz : ∀ o ∈ index, o ≠ 0)
    (hni : findAttrName b.start (tos + index.getD i 0) = some n)
    (hnj : findAttrName b.start (tos + index.getD j 0) = some n) :
    close hash tbl rng fuel b = none ∨
      close hash tbl rng fuel b = some (.error .duplicateAttributeName) := by
  have hstart : setByte b.start tos 0x0b = b.start := by
    funext p
    simp only [setByte]
    split_ifs with hp
    · rw [hp, hhead]
    · rfl
  have hb2 : BuilderState.mk (setByte b.start tos 0x0b) b.pos
      ((tos, index) :: rest) b.keyWritten b.options = b := by
    rw [hstart, ← hfr]
  have hemp : index.isEmpty = false := by
    cases index with
    | nil => simp at hj
    | cons a l => rfl
  have h1len : (index.length == 1) = false := by
    have h2 : 2 ≤ index.length := by omega
    simp only [beq_eq_false_iff_ne, ne_eq]
    omega
  have hcc := computeCuckooHash_duplicate hash tbl rng fuel b tos index rest
    n i j hfr hopt hij hj hnz hni hnj
  rcases hcc with hcc | hcc
  · refine Or.inl ?_
    simp [close, hfr, hemp, hhead, hbuo, h1len]
    rw [hb2, hcc]
  · refine Or.inr ?_
    simp [close, hfr, hemp, hhead, hbuo, h1len]
    rw [hb2, hcc]

/-- Witness for C5 at `exObjDup` (`{"A": 1, "A": 2}`): the hypotheses
hold at `i = 0`, `j = 1` with name `"A"`, and the run in fact reports
the duplicate. -/
theorem close_object_duplicate_witness :
    (close exHash exTbl exRng 3 exObjDup = none ∨
      close exHash exTbl exRng 3 exObjDup =
        some (.error .duplicateAttributeName)) ∧
      close exHash exTbl exRng 3 exObjDup =
        some (.error .duplicateAttributeName) :=
  ⟨close_object_duplicate exHash exTbl exRng 3 exObjDup 0 [9, 12] [] [65] 0 1
      rfl rfl rfl rfl (by decide) (by decide) (by decide) (by decide)
      (by decide),
    by rfl⟩

end VPackBuilder
